import Mathlib

set_option maxRecDepth 8000

/-!
Shallow embedding of the lyrics-sectioning and async-job-polling logic of the
track-studio web application, together with the queue/image API response
normalization of `src/lib/api.ts`.

The repository contains two divergent implementations of the lyrics sectioner,
both named `handleGenerateAllPrompts`, in two versions of the edit-song page
component (concatenated in `src/unnamed/part_002`):

* the pattern-based implementation (part_002 lines 1183-1310), modelled here by
  `processLineP` / `sectionsToGenerateP`: per-line regex tests of the form
  `^\[?marker\]?$` with case-insensitive matching on the trimmed line;
* the normalize-based implementation (part_002 lines 2746-2930), modelled here
  by `processLineN` / `sectionsToGenerateN`: each trimmed line is first
  normalized by deleting brackets, parentheses and colons and trimming again
  (`normalizeSectionLine`), then classified by `getSectionType`.

Strings are modelled as `List Char`; JavaScript `String.prototype.trim` and the
`\s` character class are modelled over the ASCII whitespace characters.
-/

/-- ASCII model of the JavaScript `\s` class / `trim` whitespace set. -/
def jsSpace (c : Char) : Bool :=
  c == ' ' || c == '\t' || c == '\n' || c == '\r' || c == '\x0b' || c == '\x0c'

/-- Remove trailing whitespace: a character is kept unless it is whitespace
and everything after it is dropped. -/
def dropTrailSpaces : List Char → List Char
  | [] => []
  | c :: rest =>
    let r := dropTrailSpaces rest
    if r.isEmpty && jsSpace c then [] else c :: r

/-- JavaScript `line.trim()`. -/
def jsTrim (s : List Char) : List Char :=
  dropTrailSpaces (s.dropWhile jsSpace)

/-- JavaScript `toLowerCase` (ASCII). -/
def lowerL (s : List Char) : List Char := s.map Char.toLower

/-- String literal to character list. -/
def strL (s : String) : List Char := s.toList

/-- Model of `parseInt` on a non-empty all-digit capture. -/
def parseDigits (ds : List Char) : Nat :=
  ds.foldl (fun acc c => 10 * acc + (c.toNat - '0'.toNat)) 0

/-- Match of `^verse\s*(\d+)?$`: `none` if the line is not a verse marker,
`some none` for an unnumbered verse marker, `some (some n)` when digits are
captured. -/
def verseCapture (s : List Char) : Option (Option Nat) :=
  if s.take 5 = strL "verse" then
    let ds := (s.drop 5).dropWhile jsSpace
    if ds.isEmpty then some none
    else if ds.all Char.isDigit then some (some (parseDigits ds)) else none
  else none

/-- Match of `^chorus\s*(\d+)?$` against the remainder of a pre-chorus marker. -/
def chorusTail (r : List Char) : Option (Option Nat) :=
  if r.take 6 = strL "chorus" then
    let ds := (r.drop 6).dropWhile jsSpace
    if ds.isEmpty then some none
    else if ds.all Char.isDigit then some (some (parseDigits ds)) else none
  else none

/-- Match of `^pre[\s-]?chorus\s*(\d+)?$` (normalize-based implementation,
part_002 line 2792): the separator may be one whitespace or one dash. -/
def preChorusCaptureN (s : List Char) : Option (Option Nat) :=
  if s.take 3 = strL "pre" then
    match chorusTail (s.drop 3) with
    | some c => some c
    | none =>
      match s.drop 3 with
      | c :: rest => if jsSpace c || c == '-' then chorusTail rest else none
      | [] => none
  else none

/-- Match of `^pre-?chorus\s*(\d+)?$` (pattern-based implementation,
part_002 line 1200): the separator may only be one dash. -/
def preChorusCaptureP (s : List Char) : Option (Option Nat) :=
  if s.take 3 = strL "pre" then
    match chorusTail (s.drop 3) with
    | some c => some c
    | none =>
      match s.drop 3 with
      | c :: rest => if c == '-' then chorusTail rest else none
      | [] => none
  else none

/-- Match of `^final\s+chorus$` (at least one whitespace between the words). -/
def finalChorusMatch (s : List Char) : Bool :=
  if s.take 5 = strL "final" then
    let r := s.drop 5
    !(r.takeWhile jsSpace).isEmpty && (r.dropWhile jsSpace == strL "chorus")
  else false

/-- The seven section kinds (source strings 'intro', 'verse', 'pre-chorus',
'chorus', 'bridge', 'final-chorus', 'outro'). -/
inductive SectionType where
  | intro
  | verse
  | preChorus
  | chorus
  | bridge
  | finalChorus
  | outro
deriving DecidableEq

/-- Characters deleted by `normalizeSectionLine` (part_002 line 2772). -/
def removedChar (c : Char) : Bool :=
  c == '[' || c == ']' || c == '(' || c == ')' || c == ':'

/-- Source function `normalizeSectionLine` (part_002 lines 2770-2773): delete brackets,
parentheses and colons, then trim. -/
def normalizeSectionLine (line : List Char) : List Char :=
  jsTrim (line.filter (fun c => !removedChar c))

/-- Source function `getSectionType` (part_002 lines 2776-2818): classify a normalized line,
case-insensitively, returning the section kind and number. An unnumbered or
numbered verse marker takes the captured number or defaults to 1; the
pre-chorus capture is ignored and the number is always 1. -/
def getSectionType (normalized : List Char) : Option (SectionType × Nat) :=
  let lower := lowerL normalized
  if lower = strL "intro" then some (SectionType.intro, 1)
  else
    match verseCapture lower with
    | some cap => some (SectionType.verse, cap.getD 1)
    | none =>
      match preChorusCaptureN lower with
      | some _ => some (SectionType.preChorus, 1)
      | none =>
        if finalChorusMatch lower then some (SectionType.finalChorus, 1)
        else if lower = strL "chorus" then some (SectionType.chorus, 1)
        else if lower = strL "bridge" then some (SectionType.bridge, 1)
        else if lower = strL "outro" then some (SectionType.outro, 1)
        else none

/-- One element of `sectionsToGenerate`. -/
structure LyricsSection where
  type : SectionType
  number : Nat
  lines : List (List Char)
deriving DecidableEq

/-- The `currentSection` record: its `type` field is the empty string (`none`) until a
section is opened. -/
structure CurSection where
  type? : Option SectionType
  number : Nat
  lines : List (List Char)
deriving DecidableEq

/-- Parser state threaded through the line loop. -/
structure SectionerState where
  sections : List LyricsSection
  cur : CurSection
  hasSeenChorus : Bool
  hasSeenPreChorus : Bool
deriving DecidableEq

/-- Initial state: `currentSection = { type: '', number: 1, lines: [] }`. -/
def initState : SectionerState := ⟨[], ⟨none, 1, []⟩, false, false⟩

/-- Save `currentSection` in the normalize-based implementation
(part_002 lines 2838-2840): pushed only when a type is set and the line list
is non-empty. -/
def pushCurN (secs : List LyricsSection) (cur : CurSection) : List LyricsSection :=
  match cur.type? with
  | some t => if cur.lines.isEmpty then secs else secs ++ [⟨t, cur.number, cur.lines⟩]
  | none => secs

/-- One iteration of the line loop of the normalize-based implementation
(part_002 lines 2820-2872). -/
def processLineN (st : SectionerState) (line : List Char) : SectionerState :=
  let trimmed := jsTrim line
  if trimmed.isEmpty then st
  else
    match getSectionType (normalizeSectionLine trimmed) with
    | some (SectionType.preChorus, n) =>
      if st.hasSeenPreChorus then st
      else ⟨pushCurN st.sections st.cur, ⟨some SectionType.preChorus, n, []⟩,
            st.hasSeenChorus, true⟩
    | some (SectionType.chorus, n) =>
      if st.hasSeenChorus then st
      else ⟨pushCurN st.sections st.cur, ⟨some SectionType.chorus, n, []⟩,
            true, st.hasSeenPreChorus⟩
    | some (t, n) =>
      ⟨pushCurN st.sections st.cur, ⟨some t, n, []⟩,
       st.hasSeenChorus, st.hasSeenPreChorus⟩
    | none =>
      match st.cur.type? with
      | some t =>
        ⟨st.sections, ⟨some t, st.cur.number, st.cur.lines ++ [trimmed]⟩,
         st.hasSeenChorus, st.hasSeenPreChorus⟩
      | none =>
        ⟨st.sections, ⟨some SectionType.verse, 1, [trimmed]⟩,
         st.hasSeenChorus, st.hasSeenPreChorus⟩

/-- The `sectionsToGenerate` array as computed by the normalize-based implementation,
including the final save of the last open section (part_002 lines 2874-2877). -/
def sectionsToGenerateN (lines : List (List Char)) : List LyricsSection :=
  let st := lines.foldl processLineN initState
  pushCurN st.sections st.cur

/-- Model of `lines.join('\n')`. -/
def joinNl (ls : List (List Char)) : List Char :=
  (ls.intersperse (strL "\n")).flatten

/-- Sections actually sent to the prompt-generation API by the normalize-based
implementation: its loop skips a section when `!section.lyrics.trim()`
(part_002 lines 2889-2893). -/
def promptedSectionsN (secs : List LyricsSection) : List LyricsSection :=
  secs.filter (fun s => !(jsTrim (joinNl s.lines)).isEmpty)

/-- Strip one optional leading `[` (the `\[?` of the pattern-based regexes). -/
def dropLeadBracket (s : List Char) : List Char :=
  match s with
  | '[' :: t => t
  | _ => s

/-- Strip one optional trailing `]` (the `\]?` of the pattern-based regexes). -/
def dropTrailBracket (s : List Char) : List Char :=
  match s.reverse with
  | ']' :: t => t.reverse
  | _ => s

/-- The pattern-based regexes all have the shape `^\[?inner\]?$` with the `/i`
flag and are applied to the trimmed line; `coreP` lowercases and strips the
optional brackets so the inner patterns can be matched directly. -/
def coreP (trimmed : List Char) : List Char :=
  dropTrailBracket (dropLeadBracket (lowerL trimmed))

/-- Save `currentSection` in the pattern-based implementation: pushed whenever
a type is set, even with an empty line list (part_002 lines 1215-1217). -/
def pushCurP (secs : List LyricsSection) (cur : CurSection) : List LyricsSection :=
  match cur.type? with
  | some t => secs ++ [⟨t, cur.number, cur.lines⟩]
  | none => secs

/-- Model of `sectionsToGenerate.filter(s => s.type === 'verse').length`. -/
def verseCountOf (secs : List LyricsSection) : Nat :=
  (secs.filter (fun s => s.type == SectionType.verse)).length

/-- One iteration of the line loop of the pattern-based implementation
(part_002 lines 1210-1267). An unnumbered verse marker takes
`verseCountOf` of the already-saved sections plus one; a repeated chorus or
pre-chorus marker saves the open section and leaves no section open; a lyric
line is kept only when a section is open. -/
def processLineP (st : SectionerState) (line : List Char) : SectionerState :=
  let trimmed := jsTrim line
  let core := coreP trimmed
  if core = strL "intro" then
    ⟨pushCurP st.sections st.cur, ⟨some SectionType.intro, 1, []⟩,
     st.hasSeenChorus, st.hasSeenPreChorus⟩
  else
    match verseCapture core with
    | some cap =>
      let secs := pushCurP st.sections st.cur
      ⟨secs,
       ⟨some SectionType.verse,
        (match cap with | some n => n | none => verseCountOf secs + 1), []⟩,
       st.hasSeenChorus, st.hasSeenPreChorus⟩
    | none =>
      match preChorusCaptureP core with
      | some _ =>
        let secs := pushCurP st.sections st.cur
        if st.hasSeenPreChorus then
          ⟨secs, ⟨none, 0, []⟩, st.hasSeenChorus, st.hasSeenPreChorus⟩
        else
          ⟨secs, ⟨some SectionType.preChorus, 1, []⟩, st.hasSeenChorus, true⟩
      | none =>
        if finalChorusMatch core then
          ⟨pushCurP st.sections st.cur, ⟨some SectionType.finalChorus, 1, []⟩,
           st.hasSeenChorus, st.hasSeenPreChorus⟩
        else if core = strL "chorus" then
          let secs := pushCurP st.sections st.cur
          if st.hasSeenChorus then
            ⟨secs, ⟨none, 0, []⟩, st.hasSeenChorus, st.hasSeenPreChorus⟩
          else
            ⟨secs, ⟨some SectionType.chorus, 1, []⟩, true, st.hasSeenPreChorus⟩
        else if core = strL "bridge" then
          ⟨pushCurP st.sections st.cur, ⟨some SectionType.bridge, 1, []⟩,
           st.hasSeenChorus, st.hasSeenPreChorus⟩
        else if core = strL "outro" then
          ⟨pushCurP st.sections st.cur, ⟨some SectionType.outro, 1, []⟩,
           st.hasSeenChorus, st.hasSeenPreChorus⟩
        else if !trimmed.isEmpty then
          match st.cur.type? with
          | some t =>
            ⟨st.sections, ⟨some t, st.cur.number, st.cur.lines ++ [trimmed]⟩,
             st.hasSeenChorus, st.hasSeenPreChorus⟩
          | none => st
        else st

/-- The `sectionsToGenerate` array as computed by the pattern-based implementation,
including the final save (part_002 lines 1269-1272). -/
def sectionsToGenerateP (lines : List (List Char)) : List LyricsSection :=
  let st := lines.foldl processLineP initState
  pushCurP st.sections st.cur

/-- The pattern-based prompt loop issues an API call for every section,
with no empty-text skip (part_002 lines 1276-1300). -/
def promptedSectionsP (secs : List LyricsSection) : List LyricsSection := secs

/-- Model of `lyrics.split('\n')`. -/
def splitNl : List Char → List (List Char)
  | [] => [[]]
  | c :: rest =>
    if c = '\n' then [] :: splitNl rest
    else
      match splitNl rest with
      | [] => [[c]]
      | l :: ls => (c :: l) :: ls

/-- Normalize-based sectioner on a whole lyrics string. -/
def lyricsSectionsN (lyrics : List Char) : List LyricsSection :=
  sectionsToGenerateN (splitNl lyrics)

/-- Pattern-based sectioner on a whole lyrics string. -/
def lyricsSectionsP (lyrics : List Char) : List LyricsSection :=
  sectionsToGenerateP (splitNl lyrics)

/-!
Async job poller (part_002: `handleRegenerateImage`, lines 1405-1465 and
3025-3094, identical in both page versions; `handleGenerateAllMissingImages`,
lines 1338-1386 and 2958-3006, identical in both page versions).

Time is modelled in milliseconds. Both pollers run `setInterval(cb, 3000)`;
interval tick `k` fires at time `3000 * (k + 1)`. A status fetch is an oracle
`fetch : Nat → Option (List GenImage)` giving the result of the
`api.getImagesBySong` call at tick `k`; `none` models a thrown fetch error,
which the callback catches and logs (the loop continues).

The single-image poller additionally registers `setTimeout(cb, 120000)`, which
is never cancelled anywhere; ticks 0..39 (times 3000..120000) fire before it
(the interval was registered first), later ticks find the interval cleared.
-/

/-- One record of the `GET /songs/{id}/images` response; `image_path = []`
models both an empty and an absent path. -/
structure GenImage where
  id : Nat
  image_path : List Char
deriving DecidableEq

/-- User-visible notifications relevant to the polling claims. -/
inductive Notif where
  | generatingStarted
  | imageCompleted
  | imageTimedOut
  | batchStarted
  | batchCompleted
  | batchTimedOut
deriving DecidableEq

/-- State of one single-image polling run: whether the image id is still in
the `regeneratingImages` set, whether the interval is still registered, and
the notifications emitted so far with their times. -/
structure SingleState where
  regenerating : Bool
  intervalActive : Bool
  notifs : List (Nat × Notif)
deriving DecidableEq

/-- State after `api.regenerateImage` succeeded and the interval and timeout
were registered: the id was added to `regeneratingImages` and the
`'Generating image...'` notification was shown. -/
def singleInit : SingleState := ⟨true, true, [(0, Notif.generatingStarted)]⟩

/-- Model of `images.find(img => img.id === imageId)`. -/
def findImage (images : List GenImage) (imageId : Nat) : Option GenImage :=
  images.find? (fun img => img.id == imageId)

/-- Interval callback of `handleRegenerateImage` at tick `k` (part_002 lines
3035-3073): on a fetch error the catch block only logs; on success, if the
polled image has a non-empty path the interval is cleared, the id is removed
from `regeneratingImages` and the success notification is emitted; otherwise
nothing changes. -/
def singleTick (imageId : Nat) (fetch : Nat → Option (List GenImage))
    (st : SingleState) (k : Nat) : SingleState :=
  if st.intervalActive then
    match fetch k with
    | none => st
    | some images =>
      match findImage images imageId with
      | some img =>
        if img.image_path.isEmpty then st
        else ⟨false, false, st.notifs ++ [(3000 * (k + 1), Notif.imageCompleted)]⟩
      | none => st
  else st

/-- The `setTimeout` callback at 120000 ms (part_002 lines 3076-3084): it is
never cancelled, so it always clears the interval, removes the id from
`regeneratingImages` and emits the timed-out warning. -/
def singleTimeoutFire (st : SingleState) : SingleState :=
  ⟨false, false, st.notifs ++ [(120000, Notif.imageTimedOut)]⟩

/-- A whole single-image polling run: ticks 0..39, then the timeout callback. -/
def singleRun (imageId : Nat) (fetch : Nat → Option (List GenImage)) : SingleState :=
  singleTimeoutFire ((List.range 40).foldl (singleTick imageId fetch) singleInit)

/-- State of one batch polling run of `handleGenerateAllMissingImages`. -/
structure BatchState where
  regenerating : List Nat
  intervalActive : Bool
  notifs : List (Nat × Notif)
deriving DecidableEq

/-- State after regeneration was triggered for every missing image and the
interval was registered. -/
def batchInit (missing : List GenImage) : BatchState :=
  ⟨missing.map (fun img => img.id), true, [(0, Notif.batchStarted)]⟩

/-- Model of `images.filter(img => missingImages.some(mi => mi.id === img.id) &&
(!img.image_path || img.image_path === ''))`. -/
def stillMissingOf (missing : List GenImage) (images : List GenImage) : List GenImage :=
  images.filter (fun img =>
    missing.any (fun mi => mi.id == img.id) && img.image_path.isEmpty)

/-- Interval callback of `handleGenerateAllMissingImages` at tick `k`
(part_002 lines 2978-3001). The whole body is inside a try block: a fetch
error jumps to the catch, which only logs, so on an error NEITHER the
completion branch NOR the `Date.now() - startTime > 180000` timeout branch
runs. On a successful fetch, completion clears the interval and emits the
success notification; otherwise, past 180000 ms, the interval is cleared and
the timed-out warning is emitted. -/
def batchTick (missing : List GenImage) (fetch : Nat → Option (List GenImage))
    (st : BatchState) (k : Nat) : BatchState :=
  if st.intervalActive then
    match fetch k with
    | none => st
    | some images =>
      let sm := stillMissingOf missing images
      if sm.isEmpty then
        ⟨[], false, st.notifs ++ [(3000 * (k + 1), Notif.batchCompleted)]⟩
      else if 3000 * (k + 1) > 180000 then
        ⟨[], false, st.notifs ++ [(3000 * (k + 1), Notif.batchTimedOut)]⟩
      else st
  else st

/-- Batch poller state after `n` interval ticks. -/
def batchStateAfter (missing : List GenImage) (fetch : Nat → Option (List GenImage))
    (n : Nat) : BatchState :=
  (List.range n).foldl (batchTick missing fetch) (batchInit missing)

/-!
JSON response normalization of `src/lib/api.ts`.

`getQueue` (lines 312-321) and `getImagesBySong` (lines 391-397) are modelled
from `const data = await res.json()` onward, i.e. on an arbitrary parsed JSON
body of a successful (2xx) response. JavaScript truthiness and the TypeError
thrown by a property access on `null` are modelled explicitly; numbers are
modelled as integers. -/

/-- Parsed JSON value. -/
inductive Json where
  | null
  | bool (b : Bool)
  | num (n : Int)
  | str (s : List Char)
  | arr (xs : List Json)
  | obj (fields : List (List Char × Json))

/-- JavaScript truthiness of a possibly-undefined value (`none` models
`undefined`): `undefined`, `null`, `false`, `0` and `''` are falsy; every
array and object, even empty, is truthy. -/
def truthy : Option Json → Bool
  | none => false
  | some Json.null => false
  | some (Json.bool b) => b
  | some (Json.num n) => !(n == 0)
  | some (Json.str s) => !s.isEmpty
  | some (Json.arr _) => true
  | some (Json.obj _) => true

/-- Field lookup on a parsed JSON object. -/
def lookupField : List (List Char × Json) → List Char → Option Json
  | [], _ => none
  | (k, v) :: rest, key => if k = key then some v else lookupField rest key

/-- JavaScript property access `data.key`: throws a TypeError on `null`,
yields `undefined` on every non-object, and looks the field up on objects. -/
def jsField : Json → List Char → Except Unit (Option Json)
  | Json.null, _ => Except.error ()
  | Json.obj fields, key => Except.ok (lookupField fields key)
  | _, _ => Except.ok none

/-- Model of `Array.isArray(x) ? x : []` on a possibly-undefined value. -/
def jsArrayOrEmpty : Option Json → List Json
  | some (Json.arr xs) => xs
  | _ => []

/-- Source function `getQueue` from `const data = await res.json()` onward (api.ts lines
316-320): `data.queue_items || data.items || data.queue || data`, then
`Array.isArray(queue) ? queue : []`. The error value models the thrown
TypeError when `data` is `null`. -/
def getQueue (data : Json) : Except Unit (List Json) := do
  let qi ← jsField data (strL "queue_items")
  let it ← jsField data (strL "items")
  let qu ← jsField data (strL "queue")
  let queue := if truthy qi then qi else if truthy it then it
               else if truthy qu then qu else some data
  pure (jsArrayOrEmpty queue)

/-- Source function `getImagesBySong` from `const data = await res.json()` onward (api.ts
lines 395-396): `Array.isArray(data) ? data : []`; no property access, so no
body shape can make it throw. -/
def getImagesBySong (data : Json) : List Json :=
  match data with
  | Json.arr xs => xs
  | _ => []

/-- Field lookup that never throws, used by the amended specification. -/
def plainField (data : Json) (key : List Char) : Option Json :=
  match data with
  | Json.obj fields => lookupField fields key
  | _ => none

/-- First field among `keys` whose value is truthy. -/
def firstTruthyField (data : Json) : List (List Char) → Option Json
  | [] => none
  | k :: ks =>
    match plainField data k with
    | some v => if truthy (some v) then some v else firstTruthyField data ks
    | none => firstTruthyField data ks

/-- The list content of a JSON value, empty when it is not an array. -/
def asArray (j : Json) : List Json :=
  match j with
  | Json.arr xs => xs
  | _ => []

/-- Amended specification of `getQueue`, written from the amended claim: a
`null` body throws; otherwise the first of the fields `queue_items`, `items`,
`queue` whose value is truthy is selected, falling back to the bare body, and
the result is that value when it is an array and the empty list otherwise. -/
def getQueueAmendedSpec (data : Json) : Except Unit (List Json) :=
  match data with
  | Json.null => Except.error ()
  | _ =>
    let selected := firstTruthyField data [strL "queue_items", strL "items", strL "queue"]
    Except.ok (asArray (selected.getD data))

/-!
Specification-side helper definitions used to state the claims.
-/

/-- A line is a marker line of the normalize-based implementation when its
trimmed, normalized form is classified as a section marker. -/
def isMarkerLineN (line : List Char) : Bool :=
  (getSectionType (normalizeSectionLine (jsTrim line))).isSome

/-- A line is a marker line of the pattern-based implementation when its
lowered, bracket-stripped trimmed form matches one of the seven patterns. -/
def isMarkerLineP (line : List Char) : Bool :=
  let core := coreP (jsTrim line)
  core == strL "intro" || (verseCapture core).isSome ||
    (preChorusCaptureP core).isSome || finalChorusMatch core ||
    core == strL "chorus" || core == strL "bridge" || core == strL "outro"

/-- The trimmed non-blank, non-marker lines of the input, in order, for the
normalize-based marker notion: the lines the round-trip property says the
emitted sections must reproduce. -/
def keepLinesN (lines : List (List Char)) : List (List Char) :=
  lines.filterMap (fun l =>
    if (jsTrim l).isEmpty then none
    else if isMarkerLineN l then none
    else some (jsTrim l))

/-- Same for the pattern-based marker notion. -/
def keepLinesP (lines : List (List Char)) : List (List Char) :=
  lines.filterMap (fun l =>
    if (jsTrim l).isEmpty then none
    else if isMarkerLineP l then none
    else some (jsTrim l))

/-- All non-blank lines of the input, trimmed, in order. -/
def trimsOf (lines : List (List Char)) : List (List Char) :=
  lines.filterMap (fun l => if (jsTrim l).isEmpty then none else some (jsTrim l))

/-- Concatenation, in source order, of the text lines of a section list. -/
def concatOf (secs : List LyricsSection) : List (List Char) :=
  (secs.map (fun s => s.lines)).flatten

/-- Text lines accumulated in a parser state: saved sections then the open
section. -/
def stateConcat (st : SectionerState) : List (List Char) :=
  concatOf st.sections ++ st.cur.lines

/-- Number of sections of a given kind. -/
def countType (t : SectionType) (secs : List LyricsSection) : Nat :=
  (secs.filter (fun s => s.type == t)).length

/-- Sequence numbers of the verse sections, in order. -/
def verseNums (secs : List LyricsSection) : List Nat :=
  (secs.filter (fun s => s.type == SectionType.verse)).map (fun s => s.number)

/-- Kinds whose sections always receive sequence number 1 in the
normalize-based implementation. -/
def fixedNumberKind (t : SectionType) : Bool :=
  match t with
  | SectionType.intro => true
  | SectionType.bridge => true
  | SectionType.outro => true
  | SectionType.finalChorus => true
  | _ => false

/-- A stored lyric line: non-empty with a non-whitespace first character. -/
def headOk (l : List Char) : Bool :=
  match l with
  | [] => false
  | c :: _ => !jsSpace c

/-- Whether a JSON value is an array (`Array.isArray`). -/
def isArr (j : Json) : Bool :=
  match j with
  | Json.arr _ => true
  | _ => false

/-- A line whose verse-pattern match captures no digits (it may also not be a
verse marker at all). -/
def unnumberedLineP (line : List Char) : Bool :=
  match verseCapture (coreP (jsTrim line)) with
  | some (some _) => false
  | _ => true

/-- Invariant of every reachable parser state: while no section is open, no
lines have been accumulated. -/
def goodSt (st : SectionerState) : Prop :=
  st.cur.type? = none → st.cur.lines = []

/-- Structural invariant of the normalize-based line loop: every saved
section has a non-empty line list, and every stored line (saved or open) has
a sound head. -/
def invC6 (st : SectionerState) : Prop :=
  (∀ s ∈ st.sections, s.lines ≠ [] ∧ ∀ l2 ∈ s.lines, headOk l2 = true) ∧
  (∀ l2 ∈ st.cur.lines, headOk l2 = true)
/-- One when the open section has the given kind. -/
def curBit (cur : CurSection) (t : SectionType) : Nat :=
  if cur.type? = some t then 1 else 0
/-- Capacity granted by a seen-flag: 1 once the flag is set, 0 before. -/
def flagCap (b : Bool) : Nat :=
  if b then 1 else 0
/-- Counting invariant of the normalize-based loop: chorus and pre-chorus
sections (saved plus open) never exceed the capacity of their seen-flags, and
every saved or open section of a fixed-number kind has sequence number 1. -/
def invCountN (st : SectionerState) : Prop :=
  countType SectionType.chorus st.sections + curBit st.cur SectionType.chorus ≤
    flagCap st.hasSeenChorus ∧
  countType SectionType.preChorus st.sections + curBit st.cur SectionType.preChorus ≤
    flagCap st.hasSeenPreChorus ∧
  (∀ s ∈ st.sections, fixedNumberKind s.type = true → s.number = 1) ∧
  (∀ t, st.cur.type? = some t → fixedNumberKind t = true → st.cur.number = 1)
/-- Counting invariant of the pattern-based loop. -/
def invCountP (st : SectionerState) : Prop :=
  countType SectionType.chorus st.sections + curBit st.cur SectionType.chorus ≤
    flagCap st.hasSeenChorus ∧
  countType SectionType.preChorus st.sections + curBit st.cur SectionType.preChorus ≤
    flagCap st.hasSeenPreChorus
/-- Verse-numbering invariant of the pattern-based loop: the saved verse
sections are numbered 1, 2, ... in order, and an open verse section carries
the next number. -/
def invVerseP (st : SectionerState) : Prop :=
  verseNums st.sections = List.range' 1 (verseCountOf st.sections) ∧
  (st.cur.type? = some SectionType.verse →
    st.cur.number = verseCountOf st.sections + 1)

/-!
Claim theorems.
-/

/-- C1: the claim says every run of the async job poller whose fetches never
satisfy the completion predicate — including runs in which all fetch calls
raise errors — reports "timed out" at or after `timeoutMs`. The batch poller
(timeoutMs = 180000) violates this: its timeout check sits inside the try
block after the fetch, so in a run in which every `getImagesBySong` call
throws, the state never changes — the interval is never cleared and the
timed-out warning is never emitted, at any tick. -/
theorem batchPoller_never_times_out_when_all_fetches_throw :
    ∀ n : Nat,
      batchStateAfter [⟨1, []⟩] (fun _ => none) n = batchInit [⟨1, []⟩] ∧
      (batchStateAfter [⟨1, []⟩] (fun _ => none) n).intervalActive = true ∧
      ((batchStateAfter [⟨1, []⟩] (fun _ => none) n).notifs.all
        (fun p => !(p.2 == Notif.batchTimedOut))) = true := by
  have key : ∀ n : Nat,
      batchStateAfter [⟨1, []⟩] (fun _ => none) n = batchInit [⟨1, []⟩] := by
    intro n
    induction n with
    | zero => rfl
    | succ m ih =>
      have h1 : batchStateAfter [⟨1, []⟩] (fun _ => none) (m + 1) =
          batchTick [⟨1, []⟩] (fun _ => none)
            (batchStateAfter [⟨1, []⟩] (fun _ => none) m) m := by
        simp [batchStateAfter, List.range_succ]
      rw [h1, ih]
      rfl
  intro n
  refine ⟨key n, ?_, ?_⟩ <;> rw [key n] <;> rfl

/-- C4: the claim says the timed-out warning is never emitted after the job
has already completed successfully. The single-image poller violates this:
`handleRegenerateImage` registers `setTimeout(..., 120000)` and never cancels
it, so in a run whose first poll (at 3000 ms) finds a non-empty image path,
the success notification is emitted and the job is removed from the
in-progress set — and the timed-out warning is still emitted at 120000 ms. -/
theorem singlePoller_emits_timeout_warning_after_success :
    singleRun 7 (fun _ => some [⟨7, strL "img.png"⟩]) =
      ⟨false, false, [(0, Notif.generatingStarted), (3000, Notif.imageCompleted),
                      (120000, Notif.imageTimedOut)]⟩ ∧
    ((singleRun 7 (fun _ => some [⟨7, strL "img.png"⟩])).notifs.contains
      (3000, Notif.imageCompleted)) = true ∧
    ((singleRun 7 (fun _ => some [⟨7, strL "img.png"⟩])).notifs.contains
      (120000, Notif.imageTimedOut)) = true ∧
    3000 < 120000 := by decide

/-- C2 counterexample: in the pattern-based implementation, the lyric line
"Again" that follows the second "[Chorus]" marker is not retained in the
output: it appears in no emitted section, so repeated-marker content does not
fold into the currently open section there. -/
theorem patternSectioner_drops_lines_after_repeated_chorus :
    lyricsSectionsP
        (strL "[Verse 1]\nHello\n\n[Chorus]\nWorld\n\n[Chorus]\nAgain\n\n[Outro]\nBye") =
      [⟨SectionType.verse, 1, [strL "Hello"]⟩,
       ⟨SectionType.chorus, 1, [strL "World"]⟩,
       ⟨SectionType.outro, 1, [strL "Bye"]⟩] ∧
    ((concatOf (lyricsSectionsP
        (strL "[Verse 1]\nHello\n\n[Chorus]\nWorld\n\n[Chorus]\nAgain\n\n[Outro]\nBye"))).contains
      (strL "Again")) = false := by
  decide

/-- C3 counterexample: for the pattern-based implementation the round-trip
fails: the input has non-marker, non-blank lines "Hello", "World", "Again",
but the concatenated section text is only ["World"] — "Hello" (before any
marker) and "Again" (after the repeated "[Chorus]") are dropped. -/
theorem patternSectioner_roundtrip_fails :
    concatOf (lyricsSectionsP (strL "Hello\n[Chorus]\nWorld\n[Chorus]\nAgain")) =
      [strL "World"] ∧
    keepLinesP (splitNl (strL "Hello\n[Chorus]\nWorld\n[Chorus]\nAgain")) =
      [strL "Hello", strL "World", strL "Again"] ∧
    concatOf (lyricsSectionsP (strL "Hello\n[Chorus]\nWorld\n[Chorus]\nAgain")) ≠
      keepLinesP (splitNl (strL "Hello\n[Chorus]\nWorld\n[Chorus]\nAgain")) := by
  decide

/-- C5 counterexample: on a marker-free lyrics text with non-empty lines the
pattern-based implementation returns no sections at all (its lyric branch
requires an already-open section), not one Verse 1 with every line. -/
theorem patternSectioner_markerless_lyrics_yield_no_sections :
    lyricsSectionsP (strL "Hello\nWorld") = [] ∧
    keepLinesP (splitNl (strL "Hello\nWorld")) = [strL "Hello", strL "World"] := by
  decide

/-- C6 counterexample: the pattern-based implementation both emits a section
with zero lines (its save sites do not check that the line list is non-empty)
and sends it for prompt generation (its prompt loop has no empty-text skip). -/
theorem patternSectioner_emits_and_prompts_empty_section :
    lyricsSectionsP (strL "[Intro]\n[Verse 1]\nhi") =
      [⟨SectionType.intro, 1, []⟩, ⟨SectionType.verse, 1, [strL "hi"]⟩] ∧
    ((promptedSectionsP (lyricsSectionsP (strL "[Intro]\n[Verse 1]\nhi"))).contains
      ⟨SectionType.intro, 1, []⟩) = true ∧
    (⟨SectionType.intro, 1, []⟩ : LyricsSection).lines = [] := by
  decide

/-- C7 counterexample: repeated Intro markers produce two Intro sections whose
sequence numbers are both 1 — repetitions of kinds other than Chorus and
PreChorus do not receive increasing sequence numbers. -/
theorem normalizeSectioner_repeated_intro_numbers_not_increasing :
    lyricsSectionsN (strL "[Intro]\na\n[Intro]\nb") =
      [⟨SectionType.intro, 1, [strL "a"]⟩, ⟨SectionType.intro, 1, [strL "b"]⟩] ∧
    (lyricsSectionsN (strL "[Intro]\na\n[Intro]\nb")).map (fun s => s.number) = [1, 1] := by
  decide

/-- C8 counterexample: in the normalize-based implementation an unnumbered
verse marker always produces sequence number 1 (part_002 line 2787 defaults
the missing capture to 1), so two successive unnumbered "[Verse]" markers get
numbers [1, 1] — not the next available number and not distinct. -/
theorem normalizeSectioner_unnumbered_verses_all_get_number_one :
    lyricsSectionsN (strL "[Verse]\na\n[Verse]\nb") =
      [⟨SectionType.verse, 1, [strL "a"]⟩, ⟨SectionType.verse, 1, [strL "b"]⟩] ∧
    verseNums (lyricsSectionsN (strL "[Verse]\na\n[Verse]\nb")) = [1, 1] ∧
    verseCountOf [⟨SectionType.verse, 1, [strL "a"]⟩] + 1 = 2 := by
  decide

/-- C9 counterexample: a successful response whose JSON body is `null` makes
`getQueue` throw: the property access `data.queue_items` on `null` raises a
TypeError, so response-shape variance can make `getQueue` throw even with a
2xx status. -/
theorem getQueue_throws_on_null_body :
    getQueue Json.null = Except.error () := rfl

/-- C10 counterexample: a whitespace-only input line has a normalized form
that matches none of the seven marker patterns, yet it is not appended to the
currently open section: the line loop skips blank lines before
classification. -/
theorem normalizeSectioner_blank_line_not_appended :
    getSectionType (normalizeSectionLine (jsTrim (strL "   "))) = none ∧
    lyricsSectionsN (strL "[Chorus]\nhi\n   ") =
      [⟨SectionType.chorus, 1, [strL "hi"]⟩] := by
  decide

/-- A line classified as a marker is non-blank after trimming. -/
theorem trim_ne_nil_of_marker (line : List Char) (t : SectionType) (n : Nat)
    (h : getSectionType (normalizeSectionLine (jsTrim line)) = some (t, n)) :
    (jsTrim line).isEmpty = false := by
  cases hE : (jsTrim line).isEmpty
  · rfl
  · exfalso
    have hnil : jsTrim line = [] := by
      cases hl : jsTrim line
      · rfl
      · rw [hl] at hE
        exact Bool.noConfusion hE
    rw [hnil] at h
    have : getSectionType (normalizeSectionLine []) = none := by decide
    rw [this] at h
    exact Option.noConfusion h

/-- C2 (amended): in the normalize-based implementation, a Chorus (resp.
PreChorus) marker line opens a section when its kind has not been seen, and a
repeated marker of the same kind leaves the parser state completely
unchanged, so the currently open section stays open; a following non-marker,
non-blank lyric line is appended to that open section and thereby retained. -/
theorem normalizeSectioner_repeat_marker_skip_and_fold :
    ∀ (st : SectionerState) (line : List Char),
      (getSectionType (normalizeSectionLine (jsTrim line)) = some (SectionType.chorus, 1) →
        (st.hasSeenChorus = true → processLineN st line = st) ∧
        (st.hasSeenChorus = false → processLineN st line =
          ⟨pushCurN st.sections st.cur, ⟨some SectionType.chorus, 1, []⟩,
           true, st.hasSeenPreChorus⟩)) ∧
      (getSectionType (normalizeSectionLine (jsTrim line)) = some (SectionType.preChorus, 1) →
        (st.hasSeenPreChorus = true → processLineN st line = st) ∧
        (st.hasSeenPreChorus = false → processLineN st line =
          ⟨pushCurN st.sections st.cur, ⟨some SectionType.preChorus, 1, []⟩,
           st.hasSeenChorus, true⟩)) ∧
      (∀ t, (jsTrim line).isEmpty = false →
        getSectionType (normalizeSectionLine (jsTrim line)) = none →
        st.cur.type? = some t →
        processLineN st line =
          ⟨st.sections, ⟨some t, st.cur.number, st.cur.lines ++ [jsTrim line]⟩,
           st.hasSeenChorus, st.hasSeenPreChorus⟩) := by
  intro st line
  refine ⟨?_, ?_, ?_⟩
  · intro h
    have hne := trim_ne_nil_of_marker line SectionType.chorus 1 h
    constructor <;> intro hseen <;> simp [processLineN, hne, h, hseen]
  · intro h
    have hne := trim_ne_nil_of_marker line SectionType.preChorus 1 h
    constructor <;> intro hseen <;> simp [processLineN, hne, h, hseen]
  · intro t hne hnone hcur
    simp [processLineN, hne, hnone, hcur]

/-- Witness for C2's amended theorem: with a Chorus section already open and
holding "World", a repeated "[Chorus]" marker changes nothing, and the
following line "Again" is appended to the open Chorus section. -/
theorem normalizeSectioner_repeat_marker_skip_and_fold_witness :
    processLineN ⟨[], ⟨some SectionType.chorus, 1, [strL "World"]⟩, true, false⟩
        (strL "[Chorus]") =
      ⟨[], ⟨some SectionType.chorus, 1, [strL "World"]⟩, true, false⟩ ∧
    processLineN ⟨[], ⟨some SectionType.chorus, 1, [strL "World"]⟩, true, false⟩
        (strL "Again") =
      ⟨[], ⟨some SectionType.chorus, 1, [strL "World", strL "Again"]⟩, true, false⟩ := by
  constructor
  · exact ((normalizeSectioner_repeat_marker_skip_and_fold _ _).1 (by decide)).1 rfl
  · have h := (normalizeSectioner_repeat_marker_skip_and_fold
      ⟨[], ⟨some SectionType.chorus, 1, [strL "World"]⟩, true, false⟩
      (strL "Again")).2.2 SectionType.chorus (by decide) (by decide) rfl
    exact h.trans (by decide)

/-- C10 (amended): every non-blank input line whose normalized form matches
none of the seven marker patterns is treated as lyric content: the saved
sections and the seen-flags are untouched, and the trimmed line is appended
to the currently open section, which the line opens as the implicit Verse 1
when no section was open. -/
theorem normalizeSectioner_nonmarker_nonblank_is_lyric :
    ∀ (st : SectionerState) (line : List Char),
      (st.cur.type? = none → st.cur.lines = []) →
      (jsTrim line).isEmpty = false →
      getSectionType (normalizeSectionLine (jsTrim line)) = none →
      (processLineN st line).sections = st.sections ∧
      (processLineN st line).cur.type? = some (st.cur.type?.getD SectionType.verse) ∧
      (processLineN st line).cur.lines = st.cur.lines ++ [jsTrim line] ∧
      (processLineN st line).hasSeenChorus = st.hasSeenChorus ∧
      (processLineN st line).hasSeenPreChorus = st.hasSeenPreChorus := by
  intro st line hgood hne hnone
  cases hcur : st.cur.type? with
  | some t => simp [processLineN, hne, hnone, hcur]
  | none =>
    have hlines : st.cur.lines = [] := hgood hcur
    simp [processLineN, hne, hnone, hcur, hlines]

/-- Witness for C10's amended theorem at the claim's own example "chorus 2",
starting from the initial parser state. -/
theorem normalizeSectioner_nonmarker_nonblank_is_lyric_witness :
    (processLineN initState (strL "chorus 2")).sections = initState.sections ∧
    (processLineN initState (strL "chorus 2")).cur.type? =
      some (initState.cur.type?.getD SectionType.verse) ∧
    (processLineN initState (strL "chorus 2")).cur.lines =
      initState.cur.lines ++ [jsTrim (strL "chorus 2")] ∧
    (processLineN initState (strL "chorus 2")).hasSeenChorus = initState.hasSeenChorus ∧
    (processLineN initState (strL "chorus 2")).hasSeenPreChorus = initState.hasSeenPreChorus := by
  exact normalizeSectioner_nonmarker_nonblank_is_lyric initState (strL "chorus 2")
    (fun _ => rfl) (by decide) (by decide)

/-- Evaluation of `jsArrayOrEmpty` at a present value, expressed through `asArray`. -/
theorem jsArrayOrEmpty_some (v : Json) :
    jsArrayOrEmpty (some v) = asArray v := by
  cases v <;> rfl

/-- The value `undefined` is falsy. -/
theorem truthy_none : truthy none = false := rfl

/-- Reduction of `getQueue` on an object body: the three property accesses
succeed and the `||` chain selects the first truthy value. -/
theorem getQueue_obj (fs : List (List Char × Json)) :
    getQueue (Json.obj fs) =
      Except.ok (jsArrayOrEmpty
        (if truthy (lookupField fs (strL "queue_items")) then
           lookupField fs (strL "queue_items")
         else if truthy (lookupField fs (strL "items")) then
           lookupField fs (strL "items")
         else if truthy (lookupField fs (strL "queue")) then
           lookupField fs (strL "queue")
         else some (Json.obj fs))) := rfl

/-- C9 (amended): for every non-null 2xx JSON body `getQueue` returns, without
throwing, the list described by the amended specification — the first of the
fields `queue_items`, `items`, `queue` with a truthy value, else the bare
body, taken as a list when it is an array and as the empty list otherwise; a
`null` body throws; and `getImagesBySong` returns the empty list for every
non-array body. -/
theorem getQueue_matches_amended_spec :
    (∀ data : Json, data ≠ Json.null → getQueue data = getQueueAmendedSpec data) ∧
    getQueue Json.null = Except.error () ∧
    (∀ data : Json, isArr data = false → getImagesBySong data = []) := by
  refine ⟨?_, rfl, ?_⟩
  · intro data hne
    cases data with
    | null => exact absurd rfl hne
    | bool b => rfl
    | num n => rfl
    | str s => rfl
    | arr xs => rfl
    | obj fs =>
      rw [getQueue_obj]
      cases h1 : lookupField fs (strL "queue_items") with
      | some v1 =>
        cases ht1 : truthy (some v1) with
        | true =>
          simp [getQueueAmendedSpec, firstTruthyField, plainField, h1, ht1,
            jsArrayOrEmpty_some, truthy_none]
        | false =>
          cases h2 : lookupField fs (strL "items") with
          | some v2 =>
            cases ht2 : truthy (some v2) with
            | true =>
              simp [getQueueAmendedSpec, firstTruthyField, plainField, h1, ht1, h2, ht2,
                jsArrayOrEmpty_some, truthy_none]
            | false =>
              cases h3 : lookupField fs (strL "queue") with
              | some v3 =>
                cases ht3 : truthy (some v3) with
                | true =>
                  simp [getQueueAmendedSpec, firstTruthyField, plainField,
                    h1, ht1, h2, ht2, h3, ht3, jsArrayOrEmpty_some, truthy_none]
                | false =>
                  simp [getQueueAmendedSpec, firstTruthyField, plainField,
                    h1, ht1, h2, ht2, h3, ht3, jsArrayOrEmpty_some, asArray, truthy_none]
              | none =>
                simp [getQueueAmendedSpec, firstTruthyField, plainField,
                  h1, ht1, h2, ht2, h3, jsArrayOrEmpty_some, asArray, truthy_none]
          | none =>
            cases h3 : lookupField fs (strL "queue") with
            | some v3 =>
              cases ht3 : truthy (some v3) with
              | true =>
                simp [getQueueAmendedSpec, firstTruthyField, plainField,
                  h1, ht1, h2, h3, ht3, jsArrayOrEmpty_some, truthy_none]
              | false =>
                simp [getQueueAmendedSpec, firstTruthyField, plainField,
                  h1, ht1, h2, h3, ht3, jsArrayOrEmpty_some, asArray, truthy_none]
            | none =>
              simp [getQueueAmendedSpec, firstTruthyField, plainField,
                h1, ht1, h2, h3, jsArrayOrEmpty_some, asArray, truthy_none]
      | none =>
        cases h2 : lookupField fs (strL "items") with
        | some v2 =>
          cases ht2 : truthy (some v2) with
          | true =>
            simp [getQueueAmendedSpec, firstTruthyField, plainField,
              h1, h2, ht2, jsArrayOrEmpty_some, truthy_none]
          | false =>
            cases h3 : lookupField fs (strL "queue") with
            | some v3 =>
              cases ht3 : truthy (some v3) with
              | true =>
                simp [getQueueAmendedSpec, firstTruthyField, plainField,
                  h1, h2, ht2, h3, ht3, jsArrayOrEmpty_some, truthy_none]
              | false =>
                simp [getQueueAmendedSpec, firstTruthyField, plainField,
                  h1, h2, ht2, h3, ht3, jsArrayOrEmpty_some, asArray, truthy_none]
            | none =>
              simp [getQueueAmendedSpec, firstTruthyField, plainField,
                h1, h2, ht2, h3, jsArrayOrEmpty_some, asArray, truthy_none]
        | none =>
          cases h3 : lookupField fs (strL "queue") with
          | some v3 =>
            cases ht3 : truthy (some v3) with
            | true =>
              simp [getQueueAmendedSpec, firstTruthyField, plainField,
                h1, h2, h3, ht3, jsArrayOrEmpty_some, truthy_none]
            | false =>
              simp [getQueueAmendedSpec, firstTruthyField, plainField,
                h1, h2, h3, ht3, jsArrayOrEmpty_some, asArray, truthy_none]
          | none =>
            simp [getQueueAmendedSpec, firstTruthyField, plainField,
              h1, h2, h3, jsArrayOrEmpty_some, asArray, truthy_none]
  · intro data h
    cases data with
    | arr xs => simp [isArr] at h
    | null => rfl
    | bool b => rfl
    | num n => rfl
    | str s => rfl
    | obj fs => rfl

/-- Witness for C9's amended theorem: a body with an `items` array and a
non-array numeric body. -/
theorem getQueue_matches_amended_spec_witness :
    getQueue (Json.obj [(strL "items", Json.arr [Json.num 3])]) =
      getQueueAmendedSpec (Json.obj [(strL "items", Json.arr [Json.num 3])]) ∧
    getImagesBySong (Json.num 5) = [] := by
  constructor
  · exact getQueue_matches_amended_spec.1 _ (fun h => Json.noConfusion h)
  · exact getQueue_matches_amended_spec.2.2 _ rfl

/-- Saving the open section appends exactly its accumulated lines. -/
theorem pushCurN_concat (secs : List LyricsSection) (cur : CurSection)
    (h : cur.type? = none → cur.lines = []) :
    concatOf (pushCurN secs cur) = concatOf secs ++ cur.lines := by
  cases htype : cur.type? with
  | none => simp [pushCurN, htype, h htype]
  | some t =>
    cases hl : cur.lines with
    | nil => simp [pushCurN, htype, hl]
    | cons x xs =>
      have : cur.lines.isEmpty = false := by rw [hl]; rfl
      simp [pushCurN, htype, this, concatOf, hl]

/-- Unfolding of `keepLinesN` on one line. -/
theorem keepLinesN_cons (l : List Char) (ls : List (List Char)) :
    keepLinesN (l :: ls) =
      (if (jsTrim l).isEmpty then []
       else if isMarkerLineN l then [] else [jsTrim l]) ++ keepLinesN ls := by
  by_cases hE : jsTrim l = []
  · simp [keepLinesN, hE]
  · by_cases hM : isMarkerLineN l = true
    · simp [keepLinesN, hE, hM]
    · simp [keepLinesN, hE, hM]

/-- One line loop step preserves the accumulated-text account: the text held
in saved sections plus the open section grows by exactly the trimmed line
when the line is non-blank and not a marker, and is unchanged otherwise. -/
theorem stepN_concat (st : SectionerState) (line : List Char) (h : goodSt st) :
    stateConcat (processLineN st line) =
      stateConcat st ++
        (if (jsTrim line).isEmpty then []
         else if isMarkerLineN line then [] else [jsTrim line]) ∧
    goodSt (processLineN st line) := by
  cases hE : (jsTrim line).isEmpty with
  | true =>
    constructor
    · simp [processLineN, hE]
    · simp [processLineN, hE]; exact h
  | false =>
    cases hM : getSectionType (normalizeSectionLine (jsTrim line)) with
    | none =>
      have hMk : isMarkerLineN line = false := by simp [isMarkerLineN, hM]
      cases hcur : st.cur.type? with
      | some t =>
        constructor
        · simp [processLineN, hE, hM, hcur, stateConcat, hMk]
        · simp [processLineN, hE, hM, hcur, goodSt, hMk]
      | none =>
        have hl := h hcur
        constructor
        · simp [processLineN, hE, hM, hcur, stateConcat, hl, hMk]
        · simp [processLineN, hE, hM, hcur, goodSt, hMk]
    | some tn =>
      obtain ⟨t, n⟩ := tn
      have hMk : isMarkerLineN line = true := by simp [isMarkerLineN, hM]
      cases t with
      | preChorus =>
        cases hseen : st.hasSeenPreChorus with
        | true =>
          constructor
          · simp [processLineN, hE, hM, hseen, hMk]
          · simp [processLineN, hE, hM, hseen]; exact h
        | false =>
          constructor
          · simp [processLineN, hE, hM, hseen, hMk, stateConcat,
              pushCurN_concat st.sections st.cur h]
          · simp [processLineN, hE, hM, hseen, goodSt]
      | chorus =>
        cases hseen : st.hasSeenChorus with
        | true =>
          constructor
          · simp [processLineN, hE, hM, hseen, hMk]
          · simp [processLineN, hE, hM, hseen]; exact h
        | false =>
          constructor
          · simp [processLineN, hE, hM, hseen, hMk, stateConcat,
              pushCurN_concat st.sections st.cur h]
          · simp [processLineN, hE, hM, hseen, goodSt]
      | intro =>
        constructor
        · simp [processLineN, hE, hM, hMk, stateConcat,
            pushCurN_concat st.sections st.cur h]
        · simp [processLineN, hE, hM, goodSt]
      | verse =>
        constructor
        · simp [processLineN, hE, hM, hMk, stateConcat,
            pushCurN_concat st.sections st.cur h]
        · simp [processLineN, hE, hM, goodSt]
      | bridge =>
        constructor
        · simp [processLineN, hE, hM, hMk, stateConcat,
            pushCurN_concat st.sections st.cur h]
        · simp [processLineN, hE, hM, goodSt]
      | finalChorus =>
        constructor
        · simp [processLineN, hE, hM, hMk, stateConcat,
            pushCurN_concat st.sections st.cur h]
        · simp [processLineN, hE, hM, goodSt]
      | outro =>
        constructor
        · simp [processLineN, hE, hM, hMk, stateConcat,
            pushCurN_concat st.sections st.cur h]
        · simp [processLineN, hE, hM, goodSt]

/-- The line loop accumulates exactly the non-blank, non-marker trimmed
lines. -/
theorem foldN_concat :
    ∀ (lines : List (List Char)) (st : SectionerState), goodSt st →
      stateConcat (lines.foldl processLineN st) = stateConcat st ++ keepLinesN lines ∧
      goodSt (lines.foldl processLineN st) := by
  intro lines
  induction lines with
  | nil =>
    intro st h
    exact ⟨by simp [keepLinesN], h⟩
  | cons l ls ih =>
    intro st h
    have step := stepN_concat st l h
    have rest := ih (processLineN st l) step.2
    constructor
    · rw [List.foldl_cons, rest.1, step.1, keepLinesN_cons, List.append_assoc]
    · rw [List.foldl_cons]
      exact rest.2

/-- C3 (amended): round-trip for the normalize-based implementation — the
concatenation, in source order, of the text lines of all emitted sections is
exactly the list of trimmed non-blank, non-marker input lines in input order:
nothing is dropped and nothing is duplicated. -/
theorem normalizeSectioner_roundtrip :
    ∀ lines : List (List Char),
      concatOf (sectionsToGenerateN lines) = keepLinesN lines := by
  intro lines
  have h := foldN_concat lines initState (fun _ => rfl)
  have h2 : concatOf (sectionsToGenerateN lines) =
      stateConcat (lines.foldl processLineN initState) := by
    unfold sectionsToGenerateN stateConcat
    exact pushCurN_concat _ _ h.2
  rw [h2, h.1]
  simp [stateConcat, initState, concatOf]

/-- Unfolding of `trimsOf` on one line. -/
theorem trimsOf_cons (l : List Char) (ls : List (List Char)) :
    trimsOf (l :: ls) =
      (if (jsTrim l).isEmpty then [] else [jsTrim l]) ++ trimsOf ls := by
  by_cases hE : jsTrim l = []
  · simp [trimsOf, hE]
  · simp [trimsOf, hE]

/-- While a section is open, a run of non-marker lines only appends their
non-blank trimmed forms to the open section. -/
theorem foldN_markerless_open (t : SectionType) :
    ∀ (ls : List (List Char)) (secs : List LyricsSection) (n : Nat)
      (acc : List (List Char)) (b1 b2 : Bool),
      (ls.all (fun l => (getSectionType (normalizeSectionLine (jsTrim l))).isNone)) = true →
      ls.foldl processLineN ⟨secs, ⟨some t, n, acc⟩, b1, b2⟩ =
        ⟨secs, ⟨some t, n, acc ++ trimsOf ls⟩, b1, b2⟩ := by
  intro ls
  induction ls with
  | nil =>
    intro secs n acc b1 b2 hall
    simp [trimsOf]
  | cons l ls ih =>
    intro secs n acc b1 b2 hall
    rw [List.all_cons] at hall
    obtain ⟨h1, h2⟩ := Bool.and_eq_true_iff.mp hall
    have hM : getSectionType (normalizeSectionLine (jsTrim l)) = none :=
      Option.isNone_iff_eq_none.mp h1
    by_cases hE : jsTrim l = []
    · have hstep : processLineN ⟨secs, ⟨some t, n, acc⟩, b1, b2⟩ l =
          ⟨secs, ⟨some t, n, acc⟩, b1, b2⟩ := by
        simp [processLineN, hE]
      rw [List.foldl_cons, hstep, ih secs n acc b1 b2 h2, trimsOf_cons]
      simp [hE]
    · have hstep : processLineN ⟨secs, ⟨some t, n, acc⟩, b1, b2⟩ l =
          ⟨secs, ⟨some t, n, acc ++ [jsTrim l]⟩, b1, b2⟩ := by
        simp [processLineN, hE, hM]
      rw [List.foldl_cons, hstep, ih secs n (acc ++ [jsTrim l]) b1 b2 h2, trimsOf_cons]
      simp [hE]
  
/-- On marker-free input with at least one non-blank line, the line loop ends
with no saved sections and an open Verse 1 holding every non-blank trimmed
line. -/
theorem foldN_markerless_start :
    ∀ (ls : List (List Char)) (b1 b2 : Bool),
      (ls.all (fun l => (getSectionType (normalizeSectionLine (jsTrim l))).isNone)) = true →
      trimsOf ls ≠ [] →
      ls.foldl processLineN ⟨[], ⟨none, 1, []⟩, b1, b2⟩ =
        ⟨[], ⟨some SectionType.verse, 1, trimsOf ls⟩, b1, b2⟩ := by
  intro ls
  induction ls with
  | nil =>
    intro b1 b2 hall hne
    exact absurd rfl hne
  | cons l ls ih =>
    intro b1 b2 hall hne
    rw [List.all_cons] at hall
    obtain ⟨h1, h2⟩ := Bool.and_eq_true_iff.mp hall
    have hM : getSectionType (normalizeSectionLine (jsTrim l)) = none :=
      Option.isNone_iff_eq_none.mp h1
    by_cases hE : jsTrim l = []
    · have hstep : processLineN ⟨[], ⟨none, 1, []⟩, b1, b2⟩ l =
          ⟨[], ⟨none, 1, []⟩, b1, b2⟩ := by
        simp [processLineN, hE]
      have hT : trimsOf (l :: ls) = trimsOf ls := by
        rw [trimsOf_cons]; simp [hE]
      rw [List.foldl_cons, hstep, ih b1 b2 h2 (by rw [hT] at hne; exact hne), hT]
    · have hstep : processLineN ⟨[], ⟨none, 1, []⟩, b1, b2⟩ l =
          ⟨[], ⟨some SectionType.verse, 1, [jsTrim l]⟩, b1, b2⟩ := by
        simp [processLineN, hE, hM]
      rw [List.foldl_cons, hstep,
        foldN_markerless_open SectionType.verse ls [] 1 [jsTrim l] b1 b2 h2,
        trimsOf_cons]
      simp [hE]

/-- C5 (amended): for the normalize-based implementation, lyrics with no
marker lines and at least one non-blank line yield exactly one section: a
Verse with sequence number 1 holding every non-blank trimmed line in input
order. -/
theorem normalizeSectioner_markerless_single_verse :
    ∀ lines : List (List Char),
      (lines.all (fun l => (getSectionType (normalizeSectionLine (jsTrim l))).isNone)) = true →
      trimsOf lines ≠ [] →
      sectionsToGenerateN lines = [⟨SectionType.verse, 1, trimsOf lines⟩] := by
  intro lines hall hne
  show pushCurN (lines.foldl processLineN initState).sections
    (lines.foldl processLineN initState).cur = _
  have hfold : lines.foldl processLineN initState =
      ⟨[], ⟨some SectionType.verse, 1, trimsOf lines⟩, false, false⟩ :=
    foldN_markerless_start lines false false hall hne
  rw [hfold]
  have : (trimsOf lines).isEmpty = false := by
    cases h : trimsOf lines
    · exact absurd h hne
    · rfl
  simp [pushCurN, this]

/-- Witness for C5's amended theorem on the two-line input "Hello", "World". -/
theorem normalizeSectioner_markerless_single_verse_witness :
    sectionsToGenerateN [strL "Hello", strL "World"] =
      [⟨SectionType.verse, 1, trimsOf [strL "Hello", strL "World"]⟩] := by
  exact normalizeSectioner_markerless_single_verse [strL "Hello", strL "World"]
    (by decide) (by decide)

/-- The function `dropWhile` either empties the list or exposes a head that fails the
predicate. -/
theorem dropWhile_shape (p : Char → Bool) :
    ∀ l : List Char, l.dropWhile p = [] ∨
      ∃ c r, l.dropWhile p = c :: r ∧ p c = false := by
  intro l
  induction l with
  | nil => exact Or.inl rfl
  | cons c t ih =>
    cases hp : p c
    · exact Or.inr ⟨c, t, by simp [List.dropWhile_cons, hp], hp⟩
    · simpa [List.dropWhile_cons, hp] using ih

/-- Unfolding of `dropTrailSpaces` on a cons cell. -/
theorem dropTrailSpaces_cons (c : Char) (r : List Char) :
    dropTrailSpaces (c :: r) =
      if ((dropTrailSpaces r).isEmpty && jsSpace c) then []
      else c :: dropTrailSpaces r := rfl

/-- The function `dropTrailSpaces` either empties a list or keeps its head. -/
theorem dropTrailSpaces_shape (c : Char) (r : List Char) :
    dropTrailSpaces (c :: r) = [] ∨
      dropTrailSpaces (c :: r) = c :: dropTrailSpaces r := by
  by_cases h : ((dropTrailSpaces r).isEmpty && jsSpace c) = true
  · exact Or.inl (by rw [dropTrailSpaces_cons, if_pos h])
  · exact Or.inr (by rw [dropTrailSpaces_cons, if_neg h])

/-- A non-empty trim result starts with a non-whitespace character. -/
theorem jsTrim_headOk (u : List Char) (h : jsTrim u ≠ []) :
    headOk (jsTrim u) = true := by
  rcases dropWhile_shape jsSpace u with hd | ⟨c, r, hd, hc⟩
  · exact absurd (by simp [jsTrim, hd, dropTrailSpaces]) h
  · rcases dropTrailSpaces_shape c r with ht | ht
    · exact absurd (by simp [jsTrim, hd, ht]) h
    · simp [jsTrim, hd, ht, headOk, hc]

/-- Appending anything to a line with a sound head cannot make the trim
empty. -/
theorem jsTrim_append_ne (l r : List Char) (h : headOk l = true) :
    jsTrim (l ++ r) ≠ [] := by
  cases l with
  | nil => exact absurd h (by simp [headOk])
  | cons c x =>
    have hc : jsSpace c = false := by
      cases hj : jsSpace c
      · rfl
      · rw [headOk, hj] at h
        exact absurd h (by simp)
    have hdw : (c :: x ++ r).dropWhile jsSpace = c :: (x ++ r) := by
      simp [List.dropWhile_cons, hc]
    rw [jsTrim, hdw]
    show (if (dropTrailSpaces (x ++ r)).isEmpty && jsSpace c then []
          else c :: dropTrailSpaces (x ++ r)) ≠ []
    rw [hc]
    simp

/-- The joined text of a section starts with its first line. -/
theorem joinNl_decomp (l : List Char) (ls : List (List Char)) :
    ∃ r, joinNl (l :: ls) = l ++ r := by
  cases ls with
  | nil => exact ⟨[], by simp [joinNl]⟩
  | cons m ms =>
    exact ⟨strL "\n" ++ (joinNl (m :: ms)), by
      simp [joinNl, List.intersperse_cons_cons, List.append_assoc]⟩

/-- Saving the open section preserves the invariant of the saved list. -/
theorem pushCurN_invC6 (secs : List LyricsSection) (cur : CurSection)
    (hs : ∀ s ∈ secs, s.lines ≠ [] ∧ ∀ l2 ∈ s.lines, headOk l2 = true)
    (hc : ∀ l2 ∈ cur.lines, headOk l2 = true) :
    ∀ s ∈ pushCurN secs cur, s.lines ≠ [] ∧ ∀ l2 ∈ s.lines, headOk l2 = true := by
  cases htype : cur.type? with
  | none => simpa [pushCurN, htype] using hs
  | some t =>
    cases hl : cur.lines with
    | nil => simpa [pushCurN, htype, hl] using hs
    | cons x xs =>
      have hlne : cur.lines.isEmpty = false := by rw [hl]; rfl
      intro s hsmem
      have hmem2 : s ∈ secs ++ [(⟨t, cur.number, cur.lines⟩ : LyricsSection)] := by
        simpa [pushCurN, htype, hlne] using hsmem
      rcases List.mem_append.mp hmem2 with hin | hin
      · exact hs s hin
      · have heq : s = ⟨t, cur.number, cur.lines⟩ := by simpa using hin
        subst heq
        exact ⟨by simp [hl], hc⟩

/-- The line loop preserves the structural invariant. -/
theorem stepN_invC6 (st : SectionerState) (line : List Char) (h : invC6 st) :
    invC6 (processLineN st line) := by
  obtain ⟨hs, hc⟩ := h
  by_cases hE : jsTrim line = []
  · simpa [processLineN, hE] using ⟨hs, hc⟩
  · cases hM : getSectionType (normalizeSectionLine (jsTrim line)) with
    | none =>
      have hok : headOk (jsTrim line) = true := jsTrim_headOk line hE
      cases hcur : st.cur.type? with
      | some t =>
        refine ⟨by simpa [processLineN, hE, hM, hcur] using hs, ?_⟩
        intro l2 hmem
        simp [processLineN, hE, hM, hcur] at hmem
        rcases hmem with hin | hin
        · exact hc l2 hin
        · rw [hin]; exact hok
      | none =>
        refine ⟨by simpa [processLineN, hE, hM, hcur] using hs, ?_⟩
        intro l2 hmem
        simp [processLineN, hE, hM, hcur] at hmem
        rw [hmem]
        exact hok
    | some tn =>
      obtain ⟨t, n⟩ := tn
      have hpush := pushCurN_invC6 st.sections st.cur hs hc
      cases t with
      | preChorus =>
        cases hseen : st.hasSeenPreChorus with
        | true => simpa [processLineN, hE, hM, hseen] using ⟨hs, hc⟩
        | false =>
          constructor
          · simpa [processLineN, hE, hM, hseen] using hpush
          · simp [processLineN, hE, hM, hseen]
      | chorus =>
        cases hseen : st.hasSeenChorus with
        | true => simpa [processLineN, hE, hM, hseen] using ⟨hs, hc⟩
        | false =>
          constructor
          · simpa [processLineN, hE, hM, hseen] using hpush
          · simp [processLineN, hE, hM, hseen]
      | intro =>
        constructor
        · simpa [processLineN, hE, hM] using hpush
        · simp [processLineN, hE, hM]
      | verse =>
        constructor
        · simpa [processLineN, hE, hM] using hpush
        · simp [processLineN, hE, hM]
      | bridge =>
        constructor
        · simpa [processLineN, hE, hM] using hpush
        · simp [processLineN, hE, hM]
      | finalChorus =>
        constructor
        · simpa [processLineN, hE, hM] using hpush
        · simp [processLineN, hE, hM]
      | outro =>
        constructor
        · simpa [processLineN, hE, hM] using hpush
        · simp [processLineN, hE, hM]

/-- The invariant holds for every emitted section list. -/
theorem sectionsToGenerateN_invC6 (lines : List (List Char)) :
    ∀ s ∈ sectionsToGenerateN lines,
      s.lines ≠ [] ∧ ∀ l2 ∈ s.lines, headOk l2 = true := by
  have hfold : ∀ (ls : List (List Char)) (st : SectionerState), invC6 st →
      invC6 (ls.foldl processLineN st) := by
    intro ls
    induction ls with
    | nil => intro st h; exact h
    | cons l ls ih =>
      intro st h
      rw [List.foldl_cons]
      exact ih _ (stepN_invC6 st l h)
  have hinit : invC6 initState := ⟨by simp [initState], by simp [initState]⟩
  have h := hfold lines initState hinit
  exact pushCurN_invC6 _ _ h.1 h.2

/-- C6 (amended): the normalize-based implementation emits no section with an
empty line list, and its prompt loop sends every emitted section — none is
skipped by the empty-text check, because every emitted section's joined text
has a non-blank trim. -/
theorem normalizeSectioner_no_empty_sections_emitted_or_prompted :
    ∀ lines : List (List Char),
      ((sectionsToGenerateN lines).all (fun s => !s.lines.isEmpty)) = true ∧
      promptedSectionsN (sectionsToGenerateN lines) = sectionsToGenerateN lines := by
  intro lines
  have hinv := sectionsToGenerateN_invC6 lines
  constructor
  · rw [List.all_eq_true]
    intro s hmem
    obtain ⟨hne, _⟩ := hinv s hmem
    cases hl : s.lines
    · exact absurd hl hne
    · simp [hl]
  · rw [promptedSectionsN, List.filter_eq_self]
    intro s hmem
    obtain ⟨hne, hok⟩ := hinv s hmem
    cases hl : s.lines with
    | nil => exact absurd hl hne
    | cons l0 rest =>
      obtain ⟨r, hr⟩ := joinNl_decomp l0 rest
      have hok0 : headOk l0 = true := hok l0 (by rw [hl]; exact List.mem_cons_self l0 rest)
      have hne3 : ¬ jsTrim (joinNl (l0 :: rest)) = [] := by
        rw [hr]
        exact jsTrim_append_ne l0 r hok0
      simp [hl, hne3]

/-- Effect of the guarded save on a kind count. -/
theorem countType_pushCurN (t : SectionType) (secs : List LyricsSection) (cur : CurSection) :
    countType t (pushCurN secs cur) ≤ countType t secs + curBit cur t := by
  cases htype : cur.type? with
  | none => simp [pushCurN, htype]
  | some u =>
    cases hl : cur.lines.isEmpty with
    | true => simp [pushCurN, htype, hl, curBit]
    | false =>
      by_cases hut : u = t
      · subst hut
        simp [pushCurN, htype, hl, curBit, countType, List.filter_append]
      · simp [pushCurN, htype, hl, curBit, countType, List.filter_append, hut]

/-- Effect of the unguarded save on a kind count. -/
theorem countType_pushCurP (t : SectionType) (secs : List LyricsSection) (cur : CurSection) :
    countType t (pushCurP secs cur) = countType t secs + curBit cur t := by
  cases htype : cur.type? with
  | none => simp [pushCurP, htype, curBit]
  | some u =>
    by_cases hut : u = t
    · subst hut
      simp [pushCurP, htype, curBit, countType, List.filter_append]
    · simp [pushCurP, htype, curBit, countType, List.filter_append, hut]

/-- Numbers survive the guarded save. -/
theorem pushCurN_numbers (secs : List LyricsSection) (cur : CurSection)
    (hs : ∀ s ∈ secs, fixedNumberKind s.type = true → s.number = 1)
    (hc : ∀ t, cur.type? = some t → fixedNumberKind t = true → cur.number = 1) :
    ∀ s ∈ pushCurN secs cur, fixedNumberKind s.type = true → s.number = 1 := by
  cases htype : cur.type? with
  | none => simpa [pushCurN, htype] using hs
  | some u =>
    cases hl : cur.lines.isEmpty with
    | true => simpa [pushCurN, htype, hl] using hs
    | false =>
      intro s hsmem
      have hmem2 : s ∈ secs ++ [(⟨u, cur.number, cur.lines⟩ : LyricsSection)] := by
        simpa [pushCurN, htype, hl] using hsmem
      rcases List.mem_append.mp hmem2 with hin | hin
      · exact hs s hin
      · have heq : s = ⟨u, cur.number, cur.lines⟩ := by simpa using hin
        subst heq
        intro hf
        exact hc u htype hf

/-- The kind-and-number classification gives sequence number 1 to every kind
except Verse. -/
theorem getSectionType_fixed_number (s : List Char) (t : SectionType) (n : Nat)
    (h : getSectionType s = some (t, n)) (hf : fixedNumberKind t = true) : n = 1 := by
  rw [getSectionType] at h
  by_cases h1 : lowerL s = strL "intro"
  · rw [if_pos h1] at h
    have := Prod.mk.injEq .. ▸ (Option.some.injEq .. ▸ h)
    omega
  · rw [if_neg h1] at h
    cases hv : verseCapture (lowerL s) with
    | some cap =>
      rw [hv] at h
      simp at h
      obtain ⟨ht, _⟩ := h
      rw [← ht] at hf
      exact absurd hf (by simp [fixedNumberKind])
    | none =>
      rw [hv] at h
      cases hp : preChorusCaptureN (lowerL s) with
      | some cap =>
        rw [hp] at h
        simp at h
        obtain ⟨ht, _⟩ := h
        rw [← ht] at hf
        exact absurd hf (by simp [fixedNumberKind])
      | none =>
        rw [hp] at h
        by_cases h2 : finalChorusMatch (lowerL s) = true
        · rw [if_pos h2] at h
          simp at h
          omega
        · rw [if_neg h2] at h
          by_cases h3 : lowerL s = strL "chorus"
          · rw [if_pos h3] at h
            simp at h
            omega
          · rw [if_neg h3] at h
            by_cases h4 : lowerL s = strL "bridge"
            · rw [if_pos h4] at h
              simp at h
              omega
            · rw [if_neg h4] at h
              by_cases h5 : lowerL s = strL "outro"
              · rw [if_pos h5] at h
                simp at h
                omega
              · rw [if_neg h5] at h
                exact Option.noConfusion h

/-- Opening a fresh section after a save preserves the counting invariant
when the new kind is neither Chorus nor PreChorus and carries a sound
number. -/
theorem invCount_open_other (st : SectionerState) (k : SectionType) (n : Nat)
    (h : invCountN st)
    (hkc : k ≠ SectionType.chorus) (hkp : k ≠ SectionType.preChorus)
    (hnum : fixedNumberKind k = true → n = 1) :
    invCountN ⟨pushCurN st.sections st.cur, ⟨some k, n, []⟩,
      st.hasSeenChorus, st.hasSeenPreChorus⟩ := by
  obtain ⟨hch, hpre, hnums, hcurn⟩ := h
  have hpushc := countType_pushCurN SectionType.chorus st.sections st.cur
  have hpushp := countType_pushCurN SectionType.preChorus st.sections st.cur
  have hpushnum := pushCurN_numbers st.sections st.cur hnums hcurn
  refine ⟨?_, ?_, ?_, ?_⟩
  · simp only [invCountN]
    simp [curBit, hkc]
    omega
  · simp only [invCountN]
    simp [curBit, hkp]
    omega
  · exact hpushnum
  · intro u hu hf
    simp at hu
    subst hu
    exact hnum hf

/-- The normalize-based line loop preserves the counting invariant. -/
theorem stepN_invCount (st : SectionerState) (line : List Char) (h : invCountN st) :
    invCountN (processLineN st line) := by
  by_cases hE : jsTrim line = []
  · have hstep : processLineN st line = st := by simp [processLineN, hE]
    rwa [hstep]
  · cases hM : getSectionType (normalizeSectionLine (jsTrim line)) with
    | none =>
      obtain ⟨hch, hpre, hnums, hcurn⟩ := h
      cases hcur : st.cur.type? with
      | some t =>
        have hstep : processLineN st line =
            ⟨st.sections, ⟨some t, st.cur.number, st.cur.lines ++ [jsTrim line]⟩,
             st.hasSeenChorus, st.hasSeenPreChorus⟩ := by
          simp [processLineN, hE, hM, hcur]
        rw [hstep]
        simp only [curBit, hcur] at hch hpre
        refine ⟨?_, ?_, ?_, ?_⟩
        · simpa [curBit] using hch
        · simpa [curBit] using hpre
        · exact hnums
        · intro u hu hf
          simp at hu
          subst hu
          exact hcurn t hcur hf
      | none =>
        have hstep : processLineN st line =
            ⟨st.sections, ⟨some SectionType.verse, 1, [jsTrim line]⟩,
             st.hasSeenChorus, st.hasSeenPreChorus⟩ := by
          simp [processLineN, hE, hM, hcur]
        rw [hstep]
        simp only [curBit, hcur] at hch hpre
        refine ⟨?_, ?_, ?_, ?_⟩
        · simpa [curBit] using hch
        · simpa [curBit] using hpre
        · exact hnums
        · intro u hu hf
          simp at hu
          subst hu
          exact absurd hf (by simp [fixedNumberKind])
    | some tn =>
      obtain ⟨t, n⟩ := tn
      cases t with
      | preChorus =>
        cases hseen : st.hasSeenPreChorus with
        | true =>
          have hstep : processLineN st line = st := by
            simp [processLineN, hE, hM, hseen]
          rwa [hstep]
        | false =>
          obtain ⟨hch, hpre, hnums, hcurn⟩ := h
          have hstep : processLineN st line =
              ⟨pushCurN st.sections st.cur, ⟨some SectionType.preChorus, n, []⟩,
               st.hasSeenChorus, true⟩ := by
            simp [processLineN, hE, hM, hseen]
          rw [hstep]
          have hpushc := countType_pushCurN SectionType.chorus st.sections st.cur
          have hpushp := countType_pushCurN SectionType.preChorus st.sections st.cur
          have hz : countType SectionType.preChorus st.sections +
              curBit st.cur SectionType.preChorus = 0 := by
            rw [hseen] at hpre
            simpa [flagCap] using hpre
          refine ⟨?_, ?_, ?_, ?_⟩
          · simp [curBit]
            omega
          · simp [curBit, flagCap]
            omega
          · exact pushCurN_numbers st.sections st.cur hnums hcurn
          · intro u hu hf
            simp at hu
            subst hu
            exact absurd hf (by simp [fixedNumberKind])
      | chorus =>
        cases hseen : st.hasSeenChorus with
        | true =>
          have hstep : processLineN st line = st := by
            simp [processLineN, hE, hM, hseen]
          rwa [hstep]
        | false =>
          obtain ⟨hch, hpre, hnums, hcurn⟩ := h
          have hstep : processLineN st line =
              ⟨pushCurN st.sections st.cur, ⟨some SectionType.chorus, n, []⟩,
               true, st.hasSeenPreChorus⟩ := by
            simp [processLineN, hE, hM, hseen]
          rw [hstep]
          have hpushc := countType_pushCurN SectionType.chorus st.sections st.cur
          have hpushp := countType_pushCurN SectionType.preChorus st.sections st.cur
          have hz : countType SectionType.chorus st.sections +
              curBit st.cur SectionType.chorus = 0 := by
            rw [hseen] at hch
            simpa [flagCap] using hch
          refine ⟨?_, ?_, ?_, ?_⟩
          · simp [curBit, flagCap]
            omega
          · simp [curBit]
            omega
          · exact pushCurN_numbers st.sections st.cur hnums hcurn
          · intro u hu hf
            simp at hu
            subst hu
            exact absurd hf (by simp [fixedNumberKind])
      | intro =>
        have hstep : processLineN st line =
            ⟨pushCurN st.sections st.cur, ⟨some SectionType.intro, n, []⟩,
             st.hasSeenChorus, st.hasSeenPreChorus⟩ := by
          simp [processLineN, hE, hM]
        rw [hstep]
        exact invCount_open_other st SectionType.intro n h (by simp) (by simp)
          (fun _ => getSectionType_fixed_number _ _ _ hM (by simp [fixedNumberKind]))
      | verse =>
        have hstep : processLineN st line =
            ⟨pushCurN st.sections st.cur, ⟨some SectionType.verse, n, []⟩,
             st.hasSeenChorus, st.hasSeenPreChorus⟩ := by
          simp [processLineN, hE, hM]
        rw [hstep]
        exact invCount_open_other st SectionType.verse n h (by simp) (by simp)
          (fun hf => absurd hf (by simp [fixedNumberKind]))
      | bridge =>
        have hstep : processLineN st line =
            ⟨pushCurN st.sections st.cur, ⟨some SectionType.bridge, n, []⟩,
             st.hasSeenChorus, st.hasSeenPreChorus⟩ := by
          simp [processLineN, hE, hM]
        rw [hstep]
        exact invCount_open_other st SectionType.bridge n h (by simp) (by simp)
          (fun _ => getSectionType_fixed_number _ _ _ hM (by simp [fixedNumberKind]))
      | finalChorus =>
        have hstep : processLineN st line =
            ⟨pushCurN st.sections st.cur, ⟨some SectionType.finalChorus, n, []⟩,
             st.hasSeenChorus, st.hasSeenPreChorus⟩ := by
          simp [processLineN, hE, hM]
        rw [hstep]
        exact invCount_open_other st SectionType.finalChorus n h (by simp) (by simp)
          (fun _ => getSectionType_fixed_number _ _ _ hM (by simp [fixedNumberKind]))
      | outro =>
        have hstep : processLineN st line =
            ⟨pushCurN st.sections st.cur, ⟨some SectionType.outro, n, []⟩,
             st.hasSeenChorus, st.hasSeenPreChorus⟩ := by
          simp [processLineN, hE, hM]
        rw [hstep]
        exact invCount_open_other st SectionType.outro n h (by simp) (by simp)
          (fun _ => getSectionType_fixed_number _ _ _ hM (by simp [fixedNumberKind]))

/-- Opening a fresh non-chorus, non-pre-chorus section after an unguarded
save preserves the pattern-based counting invariant. -/
theorem invCountP_open_other (st : SectionerState) (k : SectionType) (n : Nat)
    (h : invCountP st)
    (hkc : k ≠ SectionType.chorus) (hkp : k ≠ SectionType.preChorus) :
    invCountP ⟨pushCurP st.sections st.cur, ⟨some k, n, []⟩,
      st.hasSeenChorus, st.hasSeenPreChorus⟩ := by
  obtain ⟨hch, hpre⟩ := h
  have hpushc := countType_pushCurP SectionType.chorus st.sections st.cur
  have hpushp := countType_pushCurP SectionType.preChorus st.sections st.cur
  constructor
  · simp only [invCountP]
    simp [curBit, hkc]
    omega
  · simp only [invCountP]
    simp [curBit, hkp]
    omega

/-- Closing the open section (repeated chorus or pre-chorus marker) preserves
the pattern-based counting invariant. -/
theorem invCountP_close (st : SectionerState) (h : invCountP st) :
    invCountP ⟨pushCurP st.sections st.cur, ⟨none, 0, []⟩,
      st.hasSeenChorus, st.hasSeenPreChorus⟩ := by
  obtain ⟨hch, hpre⟩ := h
  have hpushc := countType_pushCurP SectionType.chorus st.sections st.cur
  have hpushp := countType_pushCurP SectionType.preChorus st.sections st.cur
  constructor
  · simp only [invCountP]
    simp [curBit]
    omega
  · simp only [invCountP]
    simp [curBit]
    omega

/-- The pattern-based line loop preserves the counting invariant. -/
theorem stepP_invCount (st : SectionerState) (line : List Char) (h : invCountP st) :
    invCountP (processLineP st line) := by
  by_cases hI : coreP (jsTrim line) = strL "intro"
  · have hstep : processLineP st line =
        ⟨pushCurP st.sections st.cur, ⟨some SectionType.intro, 1, []⟩,
         st.hasSeenChorus, st.hasSeenPreChorus⟩ := by
      simp [processLineP, hI]
    rw [hstep]
    exact invCountP_open_other st SectionType.intro 1 h (by simp) (by simp)
  · cases hv : verseCapture (coreP (jsTrim line)) with
    | some cap =>
      have hstep : processLineP st line =
          ⟨pushCurP st.sections st.cur,
           ⟨some SectionType.verse,
            (match cap with
             | some n => n
             | none => verseCountOf (pushCurP st.sections st.cur) + 1), []⟩,
           st.hasSeenChorus, st.hasSeenPreChorus⟩ := by
        simp [processLineP, hI, hv]
        cases cap <;> rfl
      rw [hstep]
      exact invCountP_open_other st SectionType.verse _ h (by simp) (by simp)
    | none =>
      cases hpc : preChorusCaptureP (coreP (jsTrim line)) with
      | some cap =>
        cases hseen : st.hasSeenPreChorus with
        | true =>
          have hstep : processLineP st line =
              ⟨pushCurP st.sections st.cur, ⟨none, 0, []⟩,
               st.hasSeenChorus, st.hasSeenPreChorus⟩ := by
            simp [processLineP, hI, hv, hpc, hseen]
          rw [hstep]
          exact invCountP_close st h
        | false =>
          obtain ⟨hch, hpre⟩ := h
          have hstep : processLineP st line =
              ⟨pushCurP st.sections st.cur, ⟨some SectionType.preChorus, 1, []⟩,
               st.hasSeenChorus, true⟩ := by
            simp [processLineP, hI, hv, hpc, hseen]
          rw [hstep]
          have hpushc := countType_pushCurP SectionType.chorus st.sections st.cur
          have hpushp := countType_pushCurP SectionType.preChorus st.sections st.cur
          have hz : countType SectionType.preChorus st.sections +
              curBit st.cur SectionType.preChorus = 0 := by
            rw [hseen] at hpre
            simpa [flagCap] using hpre
          constructor
          · simp [curBit]
            omega
          · simp [curBit, flagCap]
            omega
      | none =>
        by_cases hfc : finalChorusMatch (coreP (jsTrim line)) = true
        · have hstep : processLineP st line =
              ⟨pushCurP st.sections st.cur, ⟨some SectionType.finalChorus, 1, []⟩,
               st.hasSeenChorus, st.hasSeenPreChorus⟩ := by
            simp [processLineP, hI, hv, hpc, hfc]
          rw [hstep]
          exact invCountP_open_other st SectionType.finalChorus 1 h (by simp) (by simp)
        · by_cases hc : coreP (jsTrim line) = strL "chorus"
          · cases hseen : st.hasSeenChorus with
            | true =>
              have d1 : verseCapture (strL "chorus") = none := by decide
              have d2 : preChorusCaptureP (strL "chorus") = none := by decide
              have d3 : finalChorusMatch (strL "chorus") = false := by decide
              have d4 : ¬(strL "chorus" = strL "intro") := by decide
              have hstep : processLineP st line =
                  ⟨pushCurP st.sections st.cur, ⟨none, 0, []⟩,
                   st.hasSeenChorus, st.hasSeenPreChorus⟩ := by
                simp [processLineP, hc, d1, d2, d3, d4, hseen]
              rw [hstep]
              exact invCountP_close st h
            | false =>
              obtain ⟨hch, hpre⟩ := h
              have d1 : verseCapture (strL "chorus") = none := by decide
              have d2 : preChorusCaptureP (strL "chorus") = none := by decide
              have d3 : finalChorusMatch (strL "chorus") = false := by decide
              have d4 : ¬(strL "chorus" = strL "intro") := by decide
              have hstep : processLineP st line =
                  ⟨pushCurP st.sections st.cur, ⟨some SectionType.chorus, 1, []⟩,
                   true, st.hasSeenPreChorus⟩ := by
                simp [processLineP, hc, d1, d2, d3, d4, hseen]
              rw [hstep]
              have hpushc := countType_pushCurP SectionType.chorus st.sections st.cur
              have hpushp := countType_pushCurP SectionType.preChorus st.sections st.cur
              have hz : countType SectionType.chorus st.sections +
                  curBit st.cur SectionType.chorus = 0 := by
                rw [hseen] at hch
                simpa [flagCap] using hch
              constructor
              · simp [curBit, flagCap]
                omega
              · simp [curBit]
                omega
          · by_cases hb : coreP (jsTrim line) = strL "bridge"
            · have d1 : verseCapture (strL "bridge") = none := by decide
              have d2 : preChorusCaptureP (strL "bridge") = none := by decide
              have d3 : finalChorusMatch (strL "bridge") = false := by decide
              have d4 : ¬(strL "bridge" = strL "intro") := by decide
              have d5 : ¬(strL "bridge" = strL "chorus") := by decide
              have hstep : processLineP st line =
                  ⟨pushCurP st.sections st.cur, ⟨some SectionType.bridge, 1, []⟩,
                   st.hasSeenChorus, st.hasSeenPreChorus⟩ := by
                simp [processLineP, hb, d1, d2, d3, d4, d5]
              rw [hstep]
              exact invCountP_open_other st SectionType.bridge 1 h (by simp) (by simp)
            · by_cases ho : coreP (jsTrim line) = strL "outro"
              · have d1 : verseCapture (strL "outro") = none := by decide
                have d2 : preChorusCaptureP (strL "outro") = none := by decide
                have d3 : finalChorusMatch (strL "outro") = false := by decide
                have d4 : ¬(strL "outro" = strL "intro") := by decide
                have d5 : ¬(strL "outro" = strL "chorus") := by decide
                have d6 : ¬(strL "outro" = strL "bridge") := by decide
                have hstep : processLineP st line =
                    ⟨pushCurP st.sections st.cur, ⟨some SectionType.outro, 1, []⟩,
                     st.hasSeenChorus, st.hasSeenPreChorus⟩ := by
                  simp [processLineP, ho, d1, d2, d3, d4, d5, d6]
                rw [hstep]
                exact invCountP_open_other st SectionType.outro 1 h (by simp) (by simp)
              · by_cases hE : jsTrim line = []
                · have e1 : ¬(coreP [] = strL "intro") := by decide
                  have e2 : verseCapture (coreP []) = none := by decide
                  have e3 : preChorusCaptureP (coreP []) = none := by decide
                  have e4 : finalChorusMatch (coreP []) = false := by decide
                  have e5 : ¬(coreP [] = strL "chorus") := by decide
                  have e6 : ¬(coreP [] = strL "bridge") := by decide
                  have e7 : ¬(coreP [] = strL "outro") := by decide
                  have hstep : processLineP st line = st := by
                    simp [processLineP, hE, e1, e2, e3, e4, e5, e6, e7]
                  rwa [hstep]
                · cases hcur : st.cur.type? with
                  | some t =>
                    obtain ⟨hch, hpre⟩ := h
                    have hstep : processLineP st line =
                        ⟨st.sections,
                         ⟨some t, st.cur.number, st.cur.lines ++ [jsTrim line]⟩,
                         st.hasSeenChorus, st.hasSeenPreChorus⟩ := by
                      simp [processLineP, hI, hv, hpc, hfc, hc, hb, ho, hE, hcur]
                    rw [hstep]
                    simp only [curBit, hcur] at hch hpre
                    constructor
                    · simpa [curBit] using hch
                    · simpa [curBit] using hpre
                  | none =>
                    have hstep : processLineP st line = st := by
                      simp [processLineP, hI, hv, hpc, hfc, hc, hb, ho, hE, hcur]
                    rwa [hstep]

/-- The seen-flag capacity is at most one. -/
theorem flagCap_le_one (b : Bool) : flagCap b ≤ 1 := by
  cases b <;> simp [flagCap]

/-- C7 (amended): both implementations retain at most one Chorus section and
at most one PreChorus section however often the markers repeat; and in the
normalize-based implementation every emitted Intro, Bridge, FinalChorus and
Outro section carries sequence number 1, so repeated sections of those kinds
share the same number instead of receiving increasing ones. -/
theorem sectioners_at_most_one_chorus_and_prechorus :
    ∀ lines : List (List Char),
      countType SectionType.chorus (sectionsToGenerateN lines) ≤ 1 ∧
      countType SectionType.preChorus (sectionsToGenerateN lines) ≤ 1 ∧
      ((sectionsToGenerateN lines).all
        (fun s => !fixedNumberKind s.type || s.number == 1)) = true ∧
      countType SectionType.chorus (sectionsToGenerateP lines) ≤ 1 ∧
      countType SectionType.preChorus (sectionsToGenerateP lines) ≤ 1 := by
  intro lines
  have hfoldgenN : ∀ (ls : List (List Char)) (st : SectionerState),
      invCountN st → invCountN (ls.foldl processLineN st) := by
    intro ls
    induction ls with
    | nil => intro st h; exact h
    | cons l ls ih =>
      intro st h
      rw [List.foldl_cons]
      exact ih _ (stepN_invCount st l h)
  have hfoldgenP : ∀ (ls : List (List Char)) (st : SectionerState),
      invCountP st → invCountP (ls.foldl processLineP st) := by
    intro ls
    induction ls with
    | nil => intro st h; exact h
    | cons l ls ih =>
      intro st h
      rw [List.foldl_cons]
      exact ih _ (stepP_invCount st l h)
  have hinitN : invCountN initState := by
    refine ⟨?_, ?_, ?_, ?_⟩
    · simp [initState, countType, curBit, flagCap]
    · simp [initState, countType, curBit, flagCap]
    · intro s hs
      simp [initState] at hs
    · intro t ht hf
      simp [initState] at ht
  have hinitP : invCountP initState := by
    constructor
    · simp [initState, countType, curBit, flagCap]
    · simp [initState, countType, curBit, flagCap]
  have hN := hfoldgenN lines initState hinitN
  have hP := hfoldgenP lines initState hinitP
  obtain ⟨hchN, hpreN, hnumsN, hcurnN⟩ := hN
  obtain ⟨hchP, hpreP⟩ := hP
  refine ⟨?_, ?_, ?_, ?_, ?_⟩
  · show countType SectionType.chorus
      (pushCurN (lines.foldl processLineN initState).sections
        (lines.foldl processLineN initState).cur) ≤ 1
    have h1 := countType_pushCurN SectionType.chorus
      (lines.foldl processLineN initState).sections
      (lines.foldl processLineN initState).cur
    have h2 := flagCap_le_one (lines.foldl processLineN initState).hasSeenChorus
    omega
  · show countType SectionType.preChorus
      (pushCurN (lines.foldl processLineN initState).sections
        (lines.foldl processLineN initState).cur) ≤ 1
    have h1 := countType_pushCurN SectionType.preChorus
      (lines.foldl processLineN initState).sections
      (lines.foldl processLineN initState).cur
    have h2 := flagCap_le_one (lines.foldl processLineN initState).hasSeenPreChorus
    omega
  · rw [List.all_eq_true]
    intro s hs
    have hout := pushCurN_numbers (lines.foldl processLineN initState).sections
      (lines.foldl processLineN initState).cur hnumsN hcurnN s hs
    cases hfk : fixedNumberKind s.type with
    | false => simp [hfk]
    | true => simp [hfk, hout hfk]
  · show countType SectionType.chorus
      (pushCurP (lines.foldl processLineP initState).sections
        (lines.foldl processLineP initState).cur) ≤ 1
    have h1 := countType_pushCurP SectionType.chorus
      (lines.foldl processLineP initState).sections
      (lines.foldl processLineP initState).cur
    have h2 := flagCap_le_one (lines.foldl processLineP initState).hasSeenChorus
    omega
  · show countType SectionType.preChorus
      (pushCurP (lines.foldl processLineP initState).sections
        (lines.foldl processLineP initState).cur) ≤ 1
    have h1 := countType_pushCurP SectionType.preChorus
      (lines.foldl processLineP initState).sections
      (lines.foldl processLineP initState).cur
    have h2 := flagCap_le_one (lines.foldl processLineP initState).hasSeenPreChorus
    omega

/-- Effect of the unguarded save on the verse numbers. -/
theorem verseNums_pushCurP (secs : List LyricsSection) (cur : CurSection) :
    (cur.type? = some SectionType.verse →
      verseNums (pushCurP secs cur) = verseNums secs ++ [cur.number] ∧
      verseCountOf (pushCurP secs cur) = verseCountOf secs + 1) ∧
    ((∀ u, cur.type? = some u → u ≠ SectionType.verse) →
      cur.type? = none ∨ True →
      verseNums (pushCurP secs cur) = verseNums secs ∧
      verseCountOf (pushCurP secs cur) = verseCountOf secs) := by
  constructor
  · intro hv
    constructor
    · simp [pushCurP, hv, verseNums, List.filter_append]
    · simp [pushCurP, hv, verseCountOf, List.filter_append]
  · intro hnv _
    cases htype : cur.type? with
    | none => simp [pushCurP, htype]
    | some u =>
      have hu : u ≠ SectionType.verse := hnv u htype
      constructor
      · simp [pushCurP, htype, verseNums, List.filter_append, hu]
      · simp [pushCurP, htype, verseCountOf, List.filter_append, hu]

/-- The save preserves the verse-numbering account of the saved list. -/
theorem invVerseP_push (st : SectionerState) (h : invVerseP st) :
    verseNums (pushCurP st.sections st.cur) =
      List.range' 1 (verseCountOf (pushCurP st.sections st.cur)) := by
  obtain ⟨h1, h2⟩ := h
  cases htype : st.cur.type? with
  | none =>
    simpa [pushCurP, htype] using h1
  | some u =>
    by_cases hu : u = SectionType.verse
    · subst hu
      obtain ⟨hn, hc⟩ := (verseNums_pushCurP st.sections st.cur).1 htype
      rw [hn, hc, h1, h2 htype, List.range'_concat]
      simp [Nat.add_comm]
    · obtain ⟨hn, hc⟩ := (verseNums_pushCurP st.sections st.cur).2
        (fun v hv => by rw [htype] at hv; injection hv with hv2; subst hv2; exact hu)
        (Or.inr trivial)
      rw [hn, hc]
      exact h1

/-- The pattern-based line loop preserves the verse-numbering invariant on
inputs whose verse markers are all unnumbered. -/
theorem stepP_invVerse (st : SectionerState) (line : List Char)
    (hl : unnumberedLineP line = true) (h : invVerseP st) :
    invVerseP (processLineP st line) := by
  have hpush := invVerseP_push st h
  by_cases hI : coreP (jsTrim line) = strL "intro"
  · have hstep : processLineP st line =
        ⟨pushCurP st.sections st.cur, ⟨some SectionType.intro, 1, []⟩,
         st.hasSeenChorus, st.hasSeenPreChorus⟩ := by
      simp [processLineP, hI]
    rw [hstep]
    exact ⟨hpush, by intro hv; simp at hv⟩
  · cases hv : verseCapture (coreP (jsTrim line)) with
    | some cap =>
      have hcap : cap = none := by
        rw [unnumberedLineP, hv] at hl
        cases cap with
        | none => rfl
        | some m => exact absurd hl (by simp)
      subst hcap
      have hstep : processLineP st line =
          ⟨pushCurP st.sections st.cur,
           ⟨some SectionType.verse, verseCountOf (pushCurP st.sections st.cur) + 1, []⟩,
           st.hasSeenChorus, st.hasSeenPreChorus⟩ := by
        simp [processLineP, hI, hv]
      rw [hstep]
      exact ⟨hpush, fun _ => rfl⟩
    | none =>
      cases hpc : preChorusCaptureP (coreP (jsTrim line)) with
      | some cap =>
        cases hseen : st.hasSeenPreChorus with
        | true =>
          have hstep : processLineP st line =
              ⟨pushCurP st.sections st.cur, ⟨none, 0, []⟩,
               st.hasSeenChorus, st.hasSeenPreChorus⟩ := by
            simp [processLineP, hI, hv, hpc, hseen]
          rw [hstep]
          exact ⟨hpush, by intro hv2; simp at hv2⟩
        | false =>
          have hstep : processLineP st line =
              ⟨pushCurP st.sections st.cur, ⟨some SectionType.preChorus, 1, []⟩,
               st.hasSeenChorus, true⟩ := by
            simp [processLineP, hI, hv, hpc, hseen]
          rw [hstep]
          exact ⟨hpush, by intro hv2; simp at hv2⟩
      | none =>
        by_cases hfc : finalChorusMatch (coreP (jsTrim line)) = true
        · have hstep : processLineP st line =
              ⟨pushCurP st.sections st.cur, ⟨some SectionType.finalChorus, 1, []⟩,
               st.hasSeenChorus, st.hasSeenPreChorus⟩ := by
            simp [processLineP, hI, hv, hpc, hfc]
          rw [hstep]
          exact ⟨hpush, by intro hv2; simp at hv2⟩
        · by_cases hc : coreP (jsTrim line) = strL "chorus"
          · have d1 : verseCapture (strL "chorus") = none := by decide
            have d2 : preChorusCaptureP (strL "chorus") = none := by decide
            have d3 : finalChorusMatch (strL "chorus") = false := by decide
            have d4 : ¬(strL "chorus" = strL "intro") := by decide
            cases hseen : st.hasSeenChorus with
            | true =>
              have hstep : processLineP st line =
                  ⟨pushCurP st.sections st.cur, ⟨none, 0, []⟩,
                   st.hasSeenChorus, st.hasSeenPreChorus⟩ := by
                simp [processLineP, hc, d1, d2, d3, d4, hseen]
              rw [hstep]
              exact ⟨hpush, by intro hv2; simp at hv2⟩
            | false =>
              have hstep : processLineP st line =
                  ⟨pushCurP st.sections st.cur, ⟨some SectionType.chorus, 1, []⟩,
                   true, st.hasSeenPreChorus⟩ := by
                simp [processLineP, hc, d1, d2, d3, d4, hseen]
              rw [hstep]
              exact ⟨hpush, by intro hv2; simp at hv2⟩
          · by_cases hb : coreP (jsTrim line) = strL "bridge"
            · have d1 : verseCapture (strL "bridge") = none := by decide
              have d2 : preChorusCaptureP (strL "bridge") = none := by decide
              have d3 : finalChorusMatch (strL "bridge") = false := by decide
              have d4 : ¬(strL "bridge" = strL "intro") := by decide
              have d5 : ¬(strL "bridge" = strL "chorus") := by decide
              have hstep : processLineP st line =
                  ⟨pushCurP st.sections st.cur, ⟨some SectionType.bridge, 1, []⟩,
                   st.hasSeenChorus, st.hasSeenPreChorus⟩ := by
                simp [processLineP, hb, d1, d2, d3, d4, d5]
              rw [hstep]
              exact ⟨hpush, by intro hv2; simp at hv2⟩
            · by_cases ho : coreP (jsTrim line) = strL "outro"
              · have d1 : verseCapture (strL "outro") = none := by decide
                have d2 : preChorusCaptureP (strL "outro") = none := by decide
                have d3 : finalChorusMatch (strL "outro") = false := by decide
                have d4 : ¬(strL "outro" = strL "intro") := by decide
                have d5 : ¬(strL "outro" = strL "chorus") := by decide
                have d6 : ¬(strL "outro" = strL "bridge") := by decide
                have hstep : processLineP st line =
                    ⟨pushCurP st.sections st.cur, ⟨some SectionType.outro, 1, []⟩,
                     st.hasSeenChorus, st.hasSeenPreChorus⟩ := by
                  simp [processLineP, ho, d1, d2, d3, d4, d5, d6]
                rw [hstep]
                exact ⟨hpush, by intro hv2; simp at hv2⟩
              · by_cases hE : jsTrim line = []
                · have e1 : ¬(coreP [] = strL "intro") := by decide
                  have e2 : verseCapture (coreP []) = none := by decide
                  have e3 : preChorusCaptureP (coreP []) = none := by decide
                  have e4 : finalChorusMatch (coreP []) = false := by decide
                  have e5 : ¬(coreP [] = strL "chorus") := by decide
                  have e6 : ¬(coreP [] = strL "bridge") := by decide
                  have e7 : ¬(coreP [] = strL "outro") := by decide
                  have hstep : processLineP st line = st := by
                    simp [processLineP, hE, e1, e2, e3, e4, e5, e6, e7]
                  rwa [hstep]
                · cases hcur : st.cur.type? with
                  | some t =>
                    obtain ⟨h1, h2⟩ := h
                    have hstep : processLineP st line =
                        ⟨st.sections,
                         ⟨some t, st.cur.number, st.cur.lines ++ [jsTrim line]⟩,
                         st.hasSeenChorus, st.hasSeenPreChorus⟩ := by
                      simp [processLineP, hI, hv, hpc, hfc, hc, hb, ho, hE, hcur]
                    rw [hstep]
                    refine ⟨h1, ?_⟩
                    intro hv2
                    simp at hv2
                    subst hv2
                    exact h2 hcur
                  | none =>
                    have hstep : processLineP st line = st := by
                      simp [processLineP, hI, hv, hpc, hfc, hc, hb, ho, hE, hcur]
                    rwa [hstep]

/-- C8 (amended): in the pattern-based implementation, a verse marker with
captured digits opens a Verse numbered by those digits, and on inputs whose
verse markers are all unnumbered the emitted Verse sections are numbered
1, 2, 3, ... in order — each unnumbered marker takes one more than the count
of verse sections already saved, so successive unnumbered markers get
distinct, increasing numbers. -/
theorem patternSectioner_verse_numbering :
    (∀ (st : SectionerState) (line : List Char) (n : Nat),
      verseCapture (coreP (jsTrim line)) = some (some n) →
      processLineP st line =
        ⟨pushCurP st.sections st.cur, ⟨some SectionType.verse, n, []⟩,
         st.hasSeenChorus, st.hasSeenPreChorus⟩) ∧
    (∀ lines : List (List Char),
      (lines.all unnumberedLineP) = true →
      verseNums (sectionsToGenerateP lines) =
        List.range' 1 (verseCountOf (sectionsToGenerateP lines))) := by
  constructor
  · intro st line n hv
    have hI : ¬(coreP (jsTrim line) = strL "intro") := by
      intro hc
      have hd : verseCapture (strL "intro") = none := by decide
      rw [hc, hd] at hv
      exact Option.noConfusion hv
    simp [processLineP, hI, hv]
  · intro lines hall
    have hfold : ∀ (ls : List (List Char)) (st : SectionerState),
        (ls.all unnumberedLineP) = true → invVerseP st →
        invVerseP (ls.foldl processLineP st) := by
      intro ls
      induction ls with
      | nil => intro st _ h; exact h
      | cons l ls ih =>
        intro st hall2 h
        rw [List.all_cons] at hall2
        obtain ⟨h1, h2⟩ := Bool.and_eq_true_iff.mp hall2
        rw [List.foldl_cons]
        exact ih _ h2 (stepP_invVerse st l h1 h)
    have hinit : invVerseP initState := by
      constructor
      · simp [initState, verseNums, verseCountOf]
      · intro hv
        simp [initState] at hv
    have h := hfold lines initState hall hinit
    show verseNums (pushCurP (lines.foldl processLineP initState).sections
      (lines.foldl processLineP initState).cur) = _
    exact invVerseP_push _ h

/-- Witness for C8's amended theorem: a numbered marker "[Verse 7]" opens
Verse 7 from the initial state, and the all-unnumbered input
"[Verse]", "a", "[Verse]", "b" yields verse numbers 1, 2. -/
theorem patternSectioner_verse_numbering_witness :
    processLineP initState (strL "[Verse 7]") =
      ⟨pushCurP initState.sections initState.cur,
       ⟨some SectionType.verse, 7, []⟩,
       initState.hasSeenChorus, initState.hasSeenPreChorus⟩ ∧
    verseNums (sectionsToGenerateP [strL "[Verse]", strL "a", strL "[Verse]", strL "b"]) =
      List.range' 1 (verseCountOf
        (sectionsToGenerateP [strL "[Verse]", strL "a", strL "[Verse]", strL "b"])) := by
  constructor
  · exact patternSectioner_verse_numbering.1 initState (strL "[Verse 7]") 7 (by decide)
  · exact patternSectioner_verse_numbering.2
      [strL "[Verse]", strL "a", strL "[Verse]", strL "b"] (by decide)
